import Mathlib

set_option maxRecDepth 20000

/-!
Shallow embedding of the AI-response parsing / canvas pipeline of the
Syrion chat client (`src/unnamed/part_011`, `src/unnamed/part_002`,
`src/unnamed/part_003`, `src/unnamed/part_012`,
`src/src/components/ChatMessage.tsx`).

JS strings are modelled as `List Char`; JS `indexOf`/`slice`/`trim` and the
hand-written index-based scans are transcribed function by function.  The
`while` loops of the source are modelled with an explicit iteration bound
(`fuel`); every top-level entry point supplies a bound that provably
suffices because each loop strictly advances its position.
-/

namespace Syrion

/-- Characters of a JS string. -/
abbrev Str := List Char

/-- Convert a Lean string literal to the character-list model. -/
def strL (s : String) : Str := s.data

/-- The backtick character. -/
def btChar : Char := Char.ofNat 96

/-- The single-quote character. -/
def sqChar : Char := Char.ofNat 39

/-- The double-quote character. -/
def dqChar : Char := Char.ofNat 34

/-- The triple-backtick fence marker. -/
def fenceStr : Str := [btChar, btChar, btChar]

/-- The one-character newline pattern used with `indexOf`. -/
def nlStr : Str := ['\n']

/-- JS `String.prototype.slice(a, b)` for natural positions (character based). -/
def jsSlice (s : Str) (a b : Nat) : Str := (s.take b).drop a

/-- Whitespace as recognised by `String.prototype.trim` (the forms that occur here). -/
def isWs (c : Char) : Bool := c = ' ' || c = '\t' || c = '\n' || c = '\r'

/-- JS `String.prototype.trim`. -/
def jsTrim (s : Str) : Str :=
  ((s.dropWhile isWs).reverse.dropWhile isWs).reverse

/-- Helper for `indexOf`: index (offset by `i`) of the first occurrence of `pat`. -/
def findSubAux (pat : Str) : Str → Nat → Option Nat
  | [], _ => none
  | c :: rest, i =>
    if pat.isPrefixOf (c :: rest) then some i else findSubAux pat rest (i + 1)

/-- JS `text.indexOf(pat, pos)` for a non-empty pattern (`none` models `-1`). -/
def jsIndexOf (s pat : Str) (pos : Nat) : Option Nat :=
  (findSubAux pat (s.drop pos) 0).map (· + pos)

/-- Lower-casing used for the allow-list comparison (`language.toLowerCase()`). -/
def toLowerStr (s : Str) : Str := s.map Char.toLower

/-- One step of the closing-fence search: the inner `while` loop that appears
identically in `parseAiResponse` (part_011 lines 78-89), `extractCodeFiles`
(lines 219-229) and `extractUserCodeBlocks` (lines 285-295): find the first
triple backtick at or after `searchPos` that stands at the very start of the
text or right after a newline, skipping mid-line triples. -/
def findCloseF (s : Str) : Nat → Nat → Option Nat
  | 0, _ => none
  | fuel + 1, searchPos =>
    if searchPos < s.length then
      match jsIndexOf s fenceStr searchPos with
      | none => none
      | some potentialEnd =>
        if potentialEnd = 0 || s.get? (potentialEnd - 1) = some '\n' then
          some potentialEnd
        else
          findCloseF s fuel (potentialEnd + 3)
    else none

/-- The closing-fence search with its (sufficient) iteration bound. -/
def findClose (s : Str) (searchPos : Nat) : Option Nat :=
  findCloseF s (s.length + 1) searchPos

/-- One `code` entry of the `blocks` array built by `parseAiResponse`. -/
structure CodeBlockSeg where
  bstart : Nat
  bstop : Nat
  language : Str
  code : Str
deriving DecidableEq, Repr

/-- The default language tag (`language || 'text'`). -/
def textTag : Str := strL "text"

/-- The fenced-block scan of `parseAiResponse` (part_011 lines 57-103).
Each constructor case is one iteration of the outer `while` loop. -/
def parseScanF (s : Str) : Nat → Nat → List CodeBlockSeg
  | 0, _ => []
  | fuel + 1, pos =>
    if pos < s.length then
      match jsIndexOf s fenceStr pos with
      | none => []
      | some codeStart =>
        match jsIndexOf s nlStr (codeStart + 3) with
        | none => parseScanF s fuel (codeStart + 3)
        | some langEnd =>
          let language := jsTrim (jsSlice s (codeStart + 3) langEnd)
          match findClose s (langEnd + 1) with
          | none => []
          | some codeEnd =>
            { bstart := codeStart, bstop := codeEnd + 3,
              language := if language = [] then textTag else language,
              code := jsTrim (jsSlice s (langEnd + 1) codeEnd) }
              :: parseScanF s fuel (codeEnd + 3)
    else []

/-- The code blocks collected by `parseAiResponse` before table detection. -/
def parseCodeBlocks (s : Str) : List CodeBlockSeg := parseScanF s (s.length + 1) 0

/-- The canvas language allow-list (part_011 lines 235-240). -/
def canvasLanguages : List Str :=
  [strL "html", strL "css", strL "javascript", strL "js", strL "typescript", strL "ts",
   strL "jsx", strL "tsx", strL "react", strL "typescript-react",
   strL "python", strL "cpp", strL "c", strL "java", strL "php", strL "ruby",
   strL "go", strL "rust", strL "csharp", strL "swift", strL "kotlin", strL "c++"]

/-- The index-based `extractCodeFiles` loop (part_011 lines 197-250). -/
def extractScanF (s : Str) : Nat → Nat → List (Str × Str)
  | 0, _ => []
  | fuel + 1, pos =>
    if pos < s.length then
      match jsIndexOf s fenceStr pos with
      | none => []
      | some codeStart =>
        match jsIndexOf s nlStr (codeStart + 3) with
        | none => extractScanF s fuel (codeStart + 3)
        | some langEnd =>
          let language := jsTrim (jsSlice s (codeStart + 3) langEnd)
          match findClose s (langEnd + 1) with
          | none => []
          | some codeEnd =>
            let content := jsTrim (jsSlice s (langEnd + 1) codeEnd)
            (if canvasLanguages.contains (toLowerStr language) then
              [(language, content)]
            else []) ++ extractScanF s fuel (codeEnd + 3)
    else []

/-- `extractCodeFiles` (index-based version of part_011): language/content pairs. -/
def extractCodeFiles (s : Str) : List (Str × Str) := extractScanF s (s.length + 1) 0

/-- JS `\w` character class. -/
def isWordChar (c : Char) : Bool := c.isAlphanum || c = '_'

/-- Length of the maximal run of characters satisfying `p` starting at `i`. -/
def runLenFrom (p : Char → Bool) (s : Str) (i : Nat) : Nat :=
  ((s.drop i).takeWhile p).length

/-- One attempted match of the regex used by the `ChatMessage.tsx` version of
`extractCodeFiles` (lines 185-207) at position `i`: three backticks, a greedy
`\w*` language tag, a newline, then a lazy body up to the next three backticks
(which therefore need not stand on a line of their own).
Returns the raw tag, the raw body and the end position of the match. -/
def matchFenceRegexAt (s : Str) (i : Nat) : Option (Str × Str × Nat) :=
  if fenceStr.isPrefixOf (s.drop i) then
    let wlen := runLenFrom isWordChar s (i + 3)
    if s.get? (i + 3 + wlen) = some '\n' then
      match jsIndexOf s fenceStr (i + 4 + wlen) with
      | none => none
      | some ce => some (jsSlice s (i + 3) (i + 3 + wlen), jsSlice s (i + 4 + wlen) ce, ce + 3)
    else none
  else none

/-- Leftmost regex match at or after position `i`. -/
def findFenceMatchFrom (s : Str) : Nat → Nat → Option (Str × Str × Nat)
  | 0, _ => none
  | fuel + 1, i =>
    if i < s.length then
      match matchFenceRegexAt s i with
      | some r => some r
      | none => findFenceMatchFrom s fuel (i + 1)
    else none

/-- The `exec` loop of the regex-based `extractCodeFiles` (`ChatMessage.tsx`
lines 185-207): `language = match[1] || 'text'`, `content = match[2].trim()`,
kept when the lower-cased language is in the allow-list. -/
def regexScanF (s : Str) : Nat → Nat → List (Str × Str)
  | 0, _ => []
  | fuel + 1, p =>
    match findFenceMatchFrom s (s.length + 1) p with
    | none => []
    | some (lang, content, e) =>
      let language := if lang = [] then textTag else lang
      (if canvasLanguages.contains (toLowerStr language) then
        [(language, jsTrim content)]
      else []) ++ regexScanF s fuel e

/-- The regex-based `extractCodeFiles` of `ChatMessage.tsx`. -/
def extractCodeFilesRegex (s : Str) : List (Str × Str) :=
  regexScanF s (s.length + 1) 0

/-! ### Table detection (part_011 lines 105-138)

The table regex `(\|[^\n]+\|\n\|[\s:|-]+\|\n(?:\|[^\n]+\|\n?)*)` is compiled
by hand, component by component, with the greedy/backtracking behaviour of a
JS engine made explicit: a quantifier takes its maximal run and backs off
only as far as the literal that follows it forces. -/

/-- The character class `[\s:|-]` of the separator row. -/
def sepClass (c : Char) : Bool := isWs c || c = ':' || c = '|' || c = '-'

/-- `\|[^\n]+\|\n` at `i`: the first newline at or after `i` must close a
line of the shape `|…|` with a non-empty middle.  Returns the position just
after that newline. -/
def tableHeadAt (s : Str) (i : Nat) : Option Nat :=
  match jsIndexOf s nlStr i with
  | none => none
  | some j =>
    if s.get? i = some '|' && s.get? (j - 1) = some '|' && i + 3 ≤ j then some (j + 1)
    else none

/-- Backtracking of `[\s:|-]+` against the forced suffix `\|\n`: largest run
length `k ≥ 1` whose following two characters are `|` and a newline. -/
def sepRunK (s : Str) (p : Nat) : Nat → Option Nat
  | 0 => none
  | k + 1 =>
    if s.get? (p + 1 + (k + 1)) = some '|' && s.get? (p + 2 + (k + 1)) = some '\n' then
      some (k + 1)
    else sepRunK s p k

/-- `\|[\s:|-]+\|\n` at `p` (the class may absorb newlines, exactly as `\s`
does in JS).  Returns the position just after the closing newline. -/
def tableSepAt (s : Str) (p : Nat) : Option Nat :=
  if s.get? p = some '|' then
    match sepRunK s p (runLenFrom sepClass s (p + 1)) with
    | none => none
    | some k => some (p + k + 3)
  else none

/-- Largest index `r` with `lo ≤ r ≤ hi` carrying a `|` (the backtracked end
of a greedy `[^\n]+` before a literal `|`). -/
def findPipeDown (s : Str) (lo : Nat) : Nat → Option Nat
  | 0 => if lo = 0 && s.get? 0 = some '|' then some 0 else none
  | r + 1 =>
    if r + 1 < lo then none
    else if s.get? (r + 1) = some '|' then some (r + 1)
    else findPipeDown s lo r

/-- The greedy row loop `(?:\|[^\n]+\|\n?)*` starting at `q`: returns the
position where the star stops. -/
def rowsScanF (s : Str) : Nat → Nat → Nat
  | 0, q => q
  | fuel + 1, q =>
    if s.get? q = some '|' then
      let j := (jsIndexOf s nlStr q).getD s.length
      match findPipeDown s (q + 2) (j - 1) with
      | none => q
      | some r =>
        if s.get? (r + 1) = some '\n' then rowsScanF s fuel (r + 2)
        else rowsScanF s fuel (r + 1)
    else q

/-- A full-match attempt of the table regex at position `i`; returns the end
position of the match. -/
def matchTableAt (s : Str) (i : Nat) : Option Nat :=
  match tableHeadAt s i with
  | none => none
  | some e1 =>
    match tableSepAt s e1 with
    | none => none
    | some e2 => some (rowsScanF s (s.length + 1) e2)

/-- Leftmost table match starting at or after `i`. -/
def findTableFrom (s : Str) : Nat → Nat → Option (Nat × Nat)
  | 0, _ => none
  | fuel + 1, i =>
    if i < s.length then
      match matchTableAt s i with
      | some e => some (i, e)
      | none => findTableFrom s fuel (i + 1)
    else none

/-- The `while ((tableMatch = tableRegex.exec(text)) !== null)` loop:
successive non-overlapping matches, each a `(start, end)` span. -/
def tableMatchesF (s : Str) : Nat → Nat → List (Nat × Nat)
  | 0, _ => []
  | fuel + 1, li =>
    match findTableFrom s (s.length + 1) li with
    | none => []
    | some (i, e) => (i, e) :: tableMatchesF s fuel e

/-- One `table` entry of the `blocks` array. -/
structure TableSeg where
  tstart : Nat
  tstop : Nat
  headers : List Str
  rows : List (List Str)
deriving DecidableEq, Repr

/-- Line 118: the match text, trimmed, split into lines, blank lines dropped. -/
def tableLinesOf (s : Str) (m : Nat × Nat) : List Str :=
  ((jsTrim (jsSlice s m.1 m.2)).splitOn '\n').filter (fun l => !(jsTrim l).isEmpty)

/-- Line 120: header cells of the first line. -/
def tableHeadersOf (lines : List Str) : List Str :=
  ((lines.headI.splitOn '|').map jsTrim).filter (fun c => !c.isEmpty)

/-- Lines 121-123: row cells of the lines after the separator. -/
def tableRowsOf (lines : List Str) : List (List Str) :=
  ((lines.drop 2).map
    (fun row => ((row.splitOn '|').map jsTrim).filter (fun c => !c.isEmpty))).filter
      (fun r => !r.isEmpty)

/-- Lines 117-133: parse one candidate span into a table entry, dropping it
when fewer than two lines remain or headers or rows come out empty. -/
def tableCandidate (s : Str) (m : Nat × Nat) : Option TableSeg :=
  if (tableLinesOf s m).length ≥ 2 then
    if !(tableHeadersOf (tableLinesOf s m)).isEmpty &&
        !(tableRowsOf (tableLinesOf s m)).isEmpty then
      some { tstart := m.1, tstop := m.2,
             headers := tableHeadersOf (tableLinesOf s m),
             rows := tableRowsOf (tableLinesOf s m) }
    else none
  else none

/-- Table extraction of `parseAiResponse` (lines 109-138): a candidate match
is dropped when its span lies inside a code block span
(`tableStart >= b.start && tableEnd <= b.end`), otherwise parsed. -/
def tableBlocksOf (s : Str) : List TableSeg :=
  (tableMatchesF s (s.length + 1) 0).filterMap (fun m =>
    if (parseCodeBlocks s).any (fun b => m.1 ≥ b.bstart && m.2 ≤ b.bstop) then none
    else tableCandidate s m)

/-! ### Text cleaning and segment assembly (part_011 lines 140-195) -/

/-- One segment of the parsed response (the `components` entries). -/
inductive Segment where
  | text (content : Str)
  | code (language code : Str)
  | table (headers : List Str) (rows : List (List Str))
deriving DecidableEq, Repr

/-- A typed block with its span, before the merge sort. -/
structure RawBlock where
  rstart : Nat
  rstop : Nat
  seg : Segment
deriving DecidableEq, Repr

/-- Code blocks then table blocks, in push order. -/
def allBlocksOf (s : Str) : List RawBlock :=
  (parseCodeBlocks s).map (fun b => ⟨b.bstart, b.bstop, .code b.language b.code⟩)
    ++ (tableBlocksOf s).map (fun t => ⟨t.tstart, t.tstop, .table t.headers t.rows⟩)

/-- Stable insertion used to model `blocks.sort((a, b) => a.start - b.start)`. -/
def insertByStart (x : RawBlock) : List RawBlock → List RawBlock
  | [] => [x]
  | y :: ys => if y.rstart < x.rstart then y :: insertByStart x ys else x :: y :: ys

/-- Stable sort by start offset. -/
def sortByStart (l : List RawBlock) : List RawBlock := l.foldr insertByStart []

/-- `#` test for the heading-marker strip. -/
def isHash (c : Char) : Bool := c = '#'

/-- `text.replace(/^(#+)\s/gm, '')`: at each line start of the original
string, a run of hashes followed by one whitespace character is deleted. -/
def cleanHeadsGo : Nat → Bool → Str → Str
  | 0, _, s => s
  | fuel + 1, bol, s =>
    match s with
    | [] => []
    | c :: rest =>
      if bol && c = '#' then
        let hn := runLenFrom isHash (c :: rest) 0
        match (c :: rest).get? hn with
        | some w =>
          if isWs w then cleanHeadsGo fuel (w = '\n') ((c :: rest).drop (hn + 1))
          else c :: cleanHeadsGo fuel false rest
        | none => c :: cleanHeadsGo fuel false rest
      else c :: cleanHeadsGo fuel (c = '\n') rest

/-- `text.replace(/\*\*/g, '')`. -/
def removeStarsF : Nat → Str → Str
  | 0, s => s
  | fuel + 1, s =>
    match s with
    | [] => []
    | c :: rest =>
      if (strL "**").isPrefixOf (c :: rest) then removeStarsF fuel rest.tail
      else c :: removeStarsF fuel rest

/-- The bullet character `•`. -/
def bulletChar : Char := Char.ofNat 0x2022

/-- Backtracking of `\s*` against the forced suffix `[-*]\s`: largest run
length `k` whose next two characters are a dash/star and a whitespace. -/
def bulletK (s : Str) : Nat → Option Nat
  | 0 =>
    if (s.get? 0 = some '-' || s.get? 0 = some '*') &&
        (s.get? 1).elim false isWs then some 0
    else none
  | k + 1 =>
    if (s.get? (k + 1) = some '-' || s.get? (k + 1) = some '*') &&
        (s.get? (k + 2)).elim false isWs then some (k + 1)
    else bulletK s k

/-- `text.replace(/^\s*[-*]\s/gm, '• ')`, with the JS detail that the
leading `\s*` may absorb newlines. -/
def bulletGo : Nat → Bool → Str → Str
  | 0, _, s => s
  | fuel + 1, bol, s =>
    match s with
    | [] => []
    | c :: rest =>
      if bol then
        match bulletK s (runLenFrom isWs s 0) with
        | some k =>
          bulletChar :: ' ' ::
            bulletGo fuel (s.get? (k + 1) = some '\n') (s.drop (k + 2))
        | none => c :: bulletGo fuel (c = '\n') rest
      else c :: bulletGo fuel (c = '\n') rest

/-- The four chained `replace` calls applied to every text run. -/
def cleanText (s : Str) : Str :=
  let s1 := cleanHeadsGo (s.length + 1) true s
  let s2 := removeStarsF (s1.length + 1) s1
  let s3 := s2.filter (fun c => c ≠ btChar)
  bulletGo (s3.length + 1) true s3

/-- Push a text run (lines 148-159 / 168-180): trim, clean, drop if the
cleaned text trims to nothing. -/
def textSegsOf (piece : Str) : List Segment :=
  let textContent := jsTrim piece
  if textContent.isEmpty then []
  else
    let cleaned := cleanText textContent
    if (jsTrim cleaned).isEmpty then [] else [.text cleaned]

/-- Step 4 of `parseAiResponse`: walk the sorted blocks, filling gaps with
cleaned text runs, then the remaining tail. -/
def assembleSegs (s : Str) : List RawBlock → Nat → List Segment
  | [], currentPos =>
    if currentPos < s.length then textSegsOf (jsSlice s currentPos s.length) else []
  | b :: bs, currentPos =>
    (if currentPos < b.rstart then textSegsOf (jsSlice s currentPos b.rstart) else [])
      ++ b.seg :: assembleSegs s bs b.rstop

/-- `parseAiResponse` (part_011 lines 50-195). -/
def parseAiResponse (s : Str) : List Segment :=
  if s.isEmpty then []
  else
    let components := assembleSegs s (sortByStart (allBlocksOf s)) 0
    if components.isEmpty && !(jsTrim s).isEmpty then
      let cleaned := cleanText s
      if (jsTrim cleaned).isEmpty then [] else [.text cleaned]
    else components

example : parseAiResponse (strL "`") = [] := by decide

example : parseAiResponse (strL "hi **there**") = [.text (strL "hi there")] := by decide

example :
    parseAiResponse (strL "Intro\n```py\nx\n```\nBye") =
      [.text (strL "Intro"), .code (strL "py") (strL "x"), .text (strL "Bye")] := by
  decide

example :
    tableBlocksOf (strL "|h|\n|-|\n|a|\n") =
      [{ tstart := 0, tstop := 12, headers := [strL "h"], rows := [[strL "a"]] }] := by
  decide

/-! ### Canvas coordinator (part_011 lines 34-39 and 373-477)

Each mounted message component holds a local `showCanvas` flag;
`EMIT_CANVAS_CHANGE` stores the active id in the module-level variable and
synchronously dispatches `canvas-state-change`, whose handler in every other
component closes that component's canvas when a different message became
active.  The state is the active id plus the list of messages whose local
flag is set. -/

/-- Global canvas coordination state. -/
structure CanvasState where
  active : Option Nat
  opens : List Nat
deriving DecidableEq, Repr

/-- Initial state: no canvas open anywhere. -/
def canvasInit : CanvasState := ⟨none, []⟩

/-- `EMIT_CANVAS_CHANGE(id)` (lines 36-39) plus the synchronous
`canvas-state-change` handlers (lines 373-387): every open canvas other than
the newly active one closes itself; a `null` broadcast closes nothing. -/
def emitCanvasChange (d : Option Nat) (st : CanvasState) : CanvasState :=
  { active := d,
    opens := match d with
      | some i => st.opens.filter (fun j => j == i)
      | none => st.opens }

/-- A component running `setShowCanvas(true)`. -/
def localOpen (i : Nat) (st : CanvasState) : CanvasState :=
  if i ∈ st.opens then st else { st with opens := i :: st.opens }

/-- A component running `setShowCanvas(false)`. -/
def localClose (i : Nat) (st : CanvasState) : CanvasState :=
  { st with opens := st.opens.filter (fun j => j ≠ i) }

/-- The canvas operations a message component can perform. -/
inductive CanvasOp where
  | userOpen (i : Nat)
  | userClose (i : Nat)
  | autoOpen (i : Nat)
  | uiEvent (i : Nat)
deriving DecidableEq, Repr

/-- One operation: `handleOpenCanvas` (lines 460-467), `handleCloseCanvas`
(lines 469-472), the auto-open timer body (lines 429-438; the
`!__globalActiveCanvasId` guard is checked before the timer is armed, so the
fire itself is modelled unguarded, covering the racing-timers case), and the
settings-opened / conversation-changed handlers of a component whose canvas
is shown (lines 389-411). -/
def stepCanvas (st : CanvasState) : CanvasOp → CanvasState
  | .userOpen i =>
    let st1 := if st.active.isSome && st.active ≠ some i then emitCanvasChange none st else st
    emitCanvasChange (some i) (localOpen i st1)
  | .userClose i => emitCanvasChange none (localClose i st)
  | .autoOpen i => emitCanvasChange (some i) (localOpen i st)
  | .uiEvent i => if i ∈ st.opens then emitCanvasChange none (localClose i st) else st

/-- Run a whole operation sequence from the initial state. -/
def runCanvas (ops : List CanvasOp) : CanvasState := ops.foldl stepCanvas canvasInit

/-! ### Remote-execution result display (part_012 lines 720-747 and
part_003 lines 129-150; the two copies are identical). -/

/-- What the execution panel displays for one response. -/
inductive RunDisplay where
  | compileError (msg : Str)
  | runtimeError (msg : Str)
  | success (out : Str)
  | canned
deriving DecidableEq, Repr

/-- The result-precedence logic of `runCode` applied to
`stdout = data.run.stdout || ''`, `stderr = data.run.stderr || ''` and
`compile_output = data.compile?.output || ''`; `canned` is the
`t('programSuccess')` message. -/
def classifyRun (compileOutput stdout stderr : Str) : RunDisplay :=
  if !compileOutput.isEmpty && !(jsTrim compileOutput).isEmpty then
    .compileError (strL "Compilation Error:\n" ++ compileOutput)
  else if !stderr.isEmpty && stdout.isEmpty then
    .runtimeError stderr
  else
    let combinedOutput := stdout ++ (if !stderr.isEmpty then '\n' :: stderr else [])
    if !(jsTrim combinedOutput).isEmpty then .success combinedOutput else .canned

/-! ### File classification and component-name extraction
(part_011 lines 252-259, part_002 lines 15-51). -/

/-- A canvas file. -/
structure CodeFile where
  language : Str
  content : Str
deriving DecidableEq, Repr

/-- The component-variant language tags. -/
def reactLangs : List Str := [strL "jsx", strL "tsx", strL "react", strL "typescript-react"]

/-- Case-insensitive literal occurrence at position `i` (the literal is given
lower-case). -/
def ciAt (s : Str) (i : Nat) (lit : Str) : Bool :=
  let seg := (s.drop i).take lit.length
  seg.length = lit.length && seg.map Char.toLower = lit

/-- Single- or double-quote. -/
def quoteChar (c : Char) : Bool := c = sqChar || c = dqChar

/-- Run length of whitespace from `i`. -/
def wsRun (s : Str) (i : Nat) : Nat := runLenFrom isWs s i

/-- Run length of word characters from `i`. -/
def wordRun (s : Str) (i : Nat) : Nat := runLenFrom isWordChar s i

/-- Literal occurrence at position `i`. -/
def litAt (s : Str) (i : Nat) (lit : Str) : Bool := lit.isPrefixOf (s.drop i)

/-- `from\s+['"]react['"]` (case-insensitively) at position `k`. -/
def fromReactAt (s : Str) (k : Nat) : Bool :=
  ciAt s k (strL "from") &&
  (let w := wsRun s (k + 4)
   decide (w ≥ 1) &&
   (match s.get? (k + 4 + w) with
    | some q => quoteChar q && ciAt s (k + 5 + w) (strL "react") &&
        (match s.get? (k + 10 + w) with
         | some q2 => quoteChar q2
         | none => false)
    | none => false))

/-- The test `/import\s+.*from\s+['"]react['"]/i` (`.` does not cross
newlines, `\s+` may): some occurrence of `import`, one-plus whitespace, a
newline-free stretch, then the `from 'react'` tail. -/
def hasReactImport (s : Str) : Bool :=
  (List.range s.length).any (fun i =>
    ciAt s i (strL "import") &&
    (List.range' (i + 7) (s.length + 1 - (i + 7))).any (fun j =>
      (jsSlice s (i + 6) j).all isWs &&
      (List.range' j (s.length + 1 - j)).any (fun k =>
        (jsSlice s j k).all (fun c => c ≠ '\n') && fromReactAt s k)))

/-- `isReactCode` (part_011 lines 252-259 = part_002 lines 15-22). -/
def isReactCode (files : List CodeFile) : Bool :=
  files.any (fun f =>
    let lang := toLowerStr f.language
    reactLangs.contains lang || hasReactImport f.content)

/-- Capture `([A-Z]\w+)` at position `i`: an upper-case letter followed by a
non-empty greedy run of word characters. -/
def capNameAt (s : Str) (i : Nat) : Option Str :=
  match s.get? i with
  | some c =>
    if c.isUpper then
      let m := wordRun s (i + 1)
      if m ≥ 1 then some (c :: jsSlice s (i + 1) (i + 1 + m)) else none
    else none
  | none => none

/-- `/function\s+([A-Z]\w+)/` attempted at position `i`. -/
def funcNameAt (s : Str) (i : Nat) : Option Str :=
  if litAt s i (strL "function") then
    let w := wsRun s (i + 8)
    if w ≥ 1 then capNameAt s (i + 8 + w) else none
  else none

/-- `/const\s+([A-Z]\w+)\s*=/` attempted at position `i`. -/
def constNameAt (s : Str) (i : Nat) : Option Str :=
  if litAt s i (strL "const") then
    let w := wsRun s (i + 5)
    if w ≥ 1 then
      match capNameAt s (i + 5 + w) with
      | some n =>
        let q := i + 5 + w + n.length
        if s.get? (q + wsRun s q) = some '=' then some n else none
      | none => none
    else none
  else none

/-- `/export\s+default\s+([A-Z]\w+)/` attempted at position `i`. -/
def exportDefaultNameAt (s : Str) (i : Nat) : Option Str :=
  if litAt s i (strL "export") then
    let w := wsRun s (i + 6)
    if w ≥ 1 && litAt s (i + 6 + w) (strL "default") then
      let w2 := wsRun s (i + 13 + w)
      if w2 ≥ 1 then capNameAt s (i + 13 + w + w2) else none
    else none
  else none

/-- Leftmost position where an attempt function succeeds (`String.match`). -/
def scanFor (f : Str → Nat → Option Str) (s : Str) : Nat → Nat → Option Str
  | 0, _ => none
  | fuel + 1, i =>
    if i < s.length then
      match f s i with
      | some r => some r
      | none => scanFor f s fuel (i + 1)
    else none

/-- `extractComponentName` (part_002 lines 24-35): function declaration,
then const-assignment, then default-export. -/
def extractComponentName (code : Str) : Option Str :=
  match scanFor funcNameAt code (code.length + 1) 0 with
  | some n => some n
  | none =>
    match scanFor constNameAt code (code.length + 1) 0 with
    | some n => some n
    | none => scanFor exportDefaultNameAt code (code.length + 1) 0

example : extractComponentName (strL "function Widget() \x7b return 1; \x7d") =
    some (strL "Widget") := by decide

example : extractComponentName (strL "function widget() \x7b return 1; \x7d") = none := by
  decide

example : extractComponentName (strL "const x = 1;\nexport default Foo") =
    some (strL "Foo") := by decide

example : isReactCode [⟨strL "python", strL "print(1)"⟩] = false := by decide

example : isReactCode [⟨strL "js", strL "import React from \"react\""⟩] = true := by
  decide

/-! ### Bundle assembly (part_002 lines 37-51 and 177-282)

The sequence of `code.replace(regex, …)` passes is compiled by hand.  Each
regex is deterministic except where an ordered alternation or an optional
group genuinely branches; there the candidate ends are tried in the engine's
order. -/

/-- The left brace character. -/
def lbChar : Char := Char.ofNat 123

/-- The right brace character. -/
def rbChar : Char := Char.ofNat 125

/-- Driver for `String.prototype.replace` with a global regex: leftmost
non-overlapping matches, each replaced; scanning resumes at the match end. -/
def replaceAllGo (m : Str → Nat → Option (Nat × Str)) (s : Str) : Nat → Nat → Str
  | 0, i => s.drop i
  | fuel + 1, i =>
    match s.get? i with
    | none => []
    | some c =>
      match m s i with
      | some (e, rep) => rep ++ replaceAllGo m s fuel e
      | none => c :: replaceAllGo m s fuel (i + 1)

/-- Global replace with the standard (sufficient) iteration bound. -/
def replaceAll (m : Str → Nat → Option (Nat × Str)) (s : Str) : Str :=
  replaceAllGo m s (s.length + 1) 0

/-- Import alternative `\*\s+as\s+\w+` at `p`. -/
def altStarEnd (s : Str) (p : Nat) : Option Nat :=
  if s.get? p = some '*' then
    let w1 := wsRun s (p + 1)
    if w1 ≥ 1 && litAt s (p + 1 + w1) (strL "as") then
      let w2 := wsRun s (p + 3 + w1)
      let m := wordRun s (p + 3 + w1 + w2)
      if w2 ≥ 1 && m ≥ 1 then some (p + 3 + w1 + w2 + m) else none
    else none
  else none

/-- Import alternative `\{[^}]+\}` at `p`. -/
def altBraceEnd (s : Str) (p : Nat) : Option Nat :=
  if s.get? p = some lbChar then
    let r := runLenFrom (fun c => c ≠ rbChar) s (p + 1)
    if r ≥ 1 && s.get? (p + 1 + r) = some rbChar then some (p + 2 + r) else none
  else none

/-- Import alternative `\w+(?:\s*,\s*\{[^}]+\})?` at `p`: candidate ends with
the optional group taken first (greedy), then without. -/
def altWordEnds (s : Str) (p : Nat) : List Nat :=
  let m := wordRun s p
  if m ≥ 1 then
    let base := p + m
    let withOpt :=
      let w1 := wsRun s base
      if s.get? (base + w1) = some ',' then
        let w2 := wsRun s (base + w1 + 1)
        match altBraceEnd s (base + w1 + 1 + w2) with
        | some e => [e]
        | none => []
      else []
    withOpt ++ [base]
  else []

/-- Import alternative `type\s+\{[^}]+\}` at `p`. -/
def altTypeEnd (s : Str) (p : Nat) : Option Nat :=
  if litAt s p (strL "type") then
    let w := wsRun s (p + 4)
    if w ≥ 1 then altBraceEnd s (p + 4 + w) else none
  else none

/-- Import tail `\s+from\s+['"][^'"]+['"];?\s*\n?` starting at `j`.  The
greedy `\s*` absorbs any newline, so the trailing `\n?` matches empty. -/
def importTailAt (s : Str) (j : Nat) : Option Nat :=
  let w := wsRun s j
  if w ≥ 1 && litAt s (j + w) (strL "from") then
    let j2 := j + w + 4
    let w2 := wsRun s j2
    if w2 ≥ 1 then
      match s.get? (j2 + w2) with
      | some q =>
        if quoteChar q then
          let j3 := j2 + w2 + 1
          let r := runLenFrom (fun c => !quoteChar c) s j3
          if r ≥ 1 then
            match s.get? (j3 + r) with
            | some q2 =>
              if quoteChar q2 then
                let j4 := j3 + r + 1
                let j5 := if s.get? j4 = some ';' then j4 + 1 else j4
                some (j5 + wsRun s j5)
              else none
            | none => none
          else none
        else none
      | none => none
    else none
  else none

/-- Line 222: removal of `import <clause> from '<pkg>'` statements, the four
clause alternatives tried in the regex's order. -/
def matchImport1At (s : Str) (i : Nat) : Option (Nat × Str) :=
  if litAt s i (strL "import") then
    let w := wsRun s (i + 6)
    if w ≥ 1 then
      let p := i + 6 + w
      let cands : List Nat :=
        (altStarEnd s p).toList ++ (altBraceEnd s p).toList ++
          altWordEnds s p ++ (altTypeEnd s p).toList
      match cands.findSome? (fun e => importTailAt s e) with
      | some e2 => some (e2, [])
      | none => none
    else none
  else none

/-- Line 223: removal of side-effect imports `import '<pkg>'`. -/
def matchImport2At (s : Str) (i : Nat) : Option (Nat × Str) :=
  if litAt s i (strL "import") then
    let w := wsRun s (i + 6)
    if w ≥ 1 then
      match s.get? (i + 6 + w) with
      | some q =>
        if quoteChar q then
          let j := i + 7 + w
          let r := runLenFrom (fun c => !quoteChar c) s j
          if r ≥ 1 then
            match s.get? (j + r) with
            | some q2 =>
              if quoteChar q2 then
                let j4 := j + r + 1
                let j5 := if s.get? j4 = some ';' then j4 + 1 else j4
                some (j5 + wsRun s j5, [])
              else none
            | none => none
          else none
        else none
      | none => none
    else none
  else none

/-- Lines 222-223 of the per-file transformation. -/
def stripImports (code : Str) : Str :=
  replaceAll matchImport2At (replaceAll matchImport1At code)

/-- `function\s+App` at `i`. -/
def funcAppAt (s : Str) (i : Nat) : Bool :=
  litAt s i (strL "function") &&
  (let w := wsRun s (i + 8)
   decide (w ≥ 1) && litAt s (i + 8 + w) (strL "App"))

/-- `const\s+App\s*=` at `i`. -/
def constAppAt (s : Str) (i : Nat) : Bool :=
  litAt s i (strL "const") &&
  (let w := wsRun s (i + 5)
   decide (w ≥ 1) && litAt s (i + 5 + w) (strL "App") &&
     s.get? (i + 8 + w + wsRun s (i + 8 + w)) = some '=')

/-- `export\s+default\s+App` at `i`. -/
def exportDefaultAppAt (s : Str) (i : Nat) : Bool :=
  litAt s i (strL "export") &&
  (let w := wsRun s (i + 6)
   decide (w ≥ 1) && litAt s (i + 6 + w) (strL "default") &&
     (let w2 := wsRun s (i + 13 + w)
      decide (w2 ≥ 1) && litAt s (i + 13 + w + w2) (strL "App")))

/-- The sort-comparator test of line 202:
`/function\s+App|const\s+App\s*=|export\s+default\s+App/.test(content)`. -/
def hasAppMarker (content : Str) : Bool :=
  (List.range content.length).any (fun i =>
    funcAppAt content i || constAppAt content i || exportDefaultAppAt content i)

/-- The entry test of line 225:
`/function\s+App|const\s+App\s*=/.test(code)` on the import-stripped code. -/
def appEntryTest (code : Str) : Bool :=
  (List.range code.length).any (fun i => funcAppAt code i || constAppAt code i)

/-- Line 229: `:\s*React\.FC<[^>]+>`. -/
def matchReactFCAt (s : Str) (i : Nat) : Option (Nat × Str) :=
  if s.get? i = some ':' then
    let w := wsRun s (i + 1)
    if litAt s (i + 1 + w) (strL "React.FC<") then
      let j := i + 10 + w
      let r := runLenFrom (fun c => c ≠ '>') s j
      if r ≥ 1 && s.get? (j + r) = some '>' then some (j + r + 1, []) else none
    else none
  else none

/-- Line 230: `:\s*FC<[^>]+>`. -/
def matchFCAt (s : Str) (i : Nat) : Option (Nat × Str) :=
  if s.get? i = some ':' then
    let w := wsRun s (i + 1)
    if litAt s (i + 1 + w) (strL "FC<") then
      let j := i + 4 + w
      let r := runLenFrom (fun c => c ≠ '>') s j
      if r ≥ 1 && s.get? (j + r) = some '>' then some (j + r + 1, []) else none
    else none
  else none

/-- Line 231: `:\s*React\.ReactElement`. -/
def matchReactElementAt (s : Str) (i : Nat) : Option (Nat × Str) :=
  if s.get? i = some ':' then
    let w := wsRun s (i + 1)
    if litAt s (i + 1 + w) (strL "React.ReactElement") then some (i + 19 + w, [])
    else none
  else none

/-- Line 232: `:\s*JSX\.Element`. -/
def matchJSXElementAt (s : Str) (i : Nat) : Option (Nat × Str) :=
  if s.get? i = some ':' then
    let w := wsRun s (i + 1)
    if litAt s (i + 1 + w) (strL "JSX.Element") then some (i + 12 + w, []) else none
  else none

/-- Shared tail `\w+\s*\{[^}]*\}` of the interface strips; returns the end. -/
def ifaceTailAt (s : Str) (p : Nat) : Option Nat :=
  let m := wordRun s p
  if m ≥ 1 then
    let w := wsRun s (p + m)
    if s.get? (p + m + w) = some lbChar then
      let r := runLenFrom (fun c => c ≠ rbChar) s (p + m + w + 1)
      if s.get? (p + m + w + 1 + r) = some rbChar then some (p + m + w + 2 + r)
      else none
    else none
  else none

/-- Line 235: `export\s+interface\s+\w+\s*\{[^}]*\}`. -/
def matchExportInterfaceAt (s : Str) (i : Nat) : Option (Nat × Str) :=
  if litAt s i (strL "export") then
    let w := wsRun s (i + 6)
    if w ≥ 1 && litAt s (i + 6 + w) (strL "interface") then
      let w2 := wsRun s (i + 15 + w)
      if w2 ≥ 1 then (ifaceTailAt s (i + 15 + w + w2)).map (fun e => (e, []))
      else none
    else none
  else none

/-- Line 236: `interface\s+\w+\s*\{[^}]*\}`. -/
def matchInterfaceAt (s : Str) (i : Nat) : Option (Nat × Str) :=
  if litAt s i (strL "interface") then
    let w := wsRun s (i + 9)
    if w ≥ 1 then (ifaceTailAt s (i + 9 + w)).map (fun e => (e, [])) else none
  else none

/-- Shared tail `\w+\s*=\s*\{[^}]*\};?` of the type-alias strips. -/
def typeBraceTailAt (s : Str) (p : Nat) : Option Nat :=
  let m := wordRun s p
  if m ≥ 1 then
    let w := wsRun s (p + m)
    if s.get? (p + m + w) = some '=' then
      let q := p + m + w + 1
      let w2 := wsRun s q
      if s.get? (q + w2) = some lbChar then
        let r := runLenFrom (fun c => c ≠ rbChar) s (q + w2 + 1)
        if s.get? (q + w2 + 1 + r) = some rbChar then
          let e := q + w2 + 2 + r
          some (if s.get? e = some ';' then e + 1 else e)
        else none
      else none
    else none
  else none

/-- Line 237: `export\s+type\s+\w+\s*=\s*\{[^}]*\};?`. -/
def matchExportTypeBraceAt (s : Str) (i : Nat) : Option (Nat × Str) :=
  if litAt s i (strL "export") then
    let w := wsRun s (i + 6)
    if w ≥ 1 && litAt s (i + 6 + w) (strL "type") then
      let w2 := wsRun s (i + 10 + w)
      if w2 ≥ 1 then (typeBraceTailAt s (i + 10 + w + w2)).map (fun e => (e, []))
      else none
    else none
  else none

/-- Line 238: `type\s+\w+\s*=\s*\{[^}]*\};?`. -/
def matchTypeBraceAt (s : Str) (i : Nat) : Option (Nat × Str) :=
  if litAt s i (strL "type") then
    let w := wsRun s (i + 4)
    if w ≥ 1 then (typeBraceTailAt s (i + 4 + w)).map (fun e => (e, [])) else none
  else none

/-- Line 239: `type\s+\w+\s*=\s*[^;]+;` (the backtracking of `\s*` against
`[^;]+` amounts to: at least one character before the next semicolon). -/
def matchTypeSemiAt (s : Str) (i : Nat) : Option (Nat × Str) :=
  if litAt s i (strL "type") then
    let w := wsRun s (i + 4)
    if w ≥ 1 then
      let m := wordRun s (i + 4 + w)
      if m ≥ 1 then
        let p := i + 4 + w + m
        let w2 := wsRun s p
        if s.get? (p + w2) = some '=' then
          let q := p + w2 + 1
          let r := runLenFrom (fun c => c ≠ ';') s q
          if r ≥ 1 && s.get? (q + r) = some ';' then some (q + r + 1, []) else none
        else none
      else none
    else none
  else none

/-- The lookahead `(?=\s*[,\)\=\{])`. -/
def lookPunct (s : Str) (j : Nat) : Bool :=
  match s.get? (j + wsRun s j) with
  | some c => c = ',' || c = ')' || c = '=' || c = lbChar
  | none => false

/-- Line 242: `:\s*\w+(\[\])?(?=\s*[,\)\=\{])`. -/
def matchColonWordAt (s : Str) (i : Nat) : Option (Nat × Str) :=
  if s.get? i = some ':' then
    let w := wsRun s (i + 1)
    let m := wordRun s (i + 1 + w)
    if m ≥ 1 then
      let e0 := i + 1 + w + m
      if litAt s e0 (strL "[]") && lookPunct s (e0 + 2) then some (e0 + 2, [])
      else if lookPunct s e0 then some (e0, [])
      else none
    else none
  else none

/-- Line 243: `:\s*\w+<[^>]+>(?=\s*[,\)\=\{])`. -/
def matchColonGenericAt (s : Str) (i : Nat) : Option (Nat × Str) :=
  if s.get? i = some ':' then
    let w := wsRun s (i + 1)
    let m := wordRun s (i + 1 + w)
    if m ≥ 1 && s.get? (i + 1 + w + m) = some '<' then
      let j := i + 2 + w + m
      let r := runLenFrom (fun c => c ≠ '>') s j
      if r ≥ 1 && s.get? (j + r) = some '>' && lookPunct s (j + r + 1) then
        some (j + r + 1, [])
      else none
    else none
  else none

/-- Line 246: `\(([^)]+)\):\s*\w+(\[\])?\s*=>` replaced by `($1) =>`. -/
def matchParenArrowAt (s : Str) (i : Nat) : Option (Nat × Str) :=
  if s.get? i = some '(' then
    let r := runLenFrom (fun c => c ≠ ')') s (i + 1)
    if r ≥ 1 && s.get? (i + 1 + r) = some ')' && s.get? (i + 2 + r) = some ':' then
      let w := wsRun s (i + 3 + r)
      let m := wordRun s (i + 3 + r + w)
      if m ≥ 1 then
        let e0 := i + 3 + r + w + m
        let g := '(' :: (jsSlice s (i + 1) (i + 1 + r) ++ strL ") =>")
        let tryEnd := fun (e : Nat) =>
          let w2 := wsRun s e
          if litAt s (e + w2) (strL "=>") then some (e + w2 + 2, g) else none
        if litAt s e0 (strL "[]") then
          match tryEnd (e0 + 2) with
          | some res => some res
          | none => tryEnd e0
        else tryEnd e0
      else none
    else none
  else none

/-- Line 247: `\(([^)]+)\)\s*:\s*\w+\s*\{` replaced by `($1) {`. -/
def matchParenBraceAt (s : Str) (i : Nat) : Option (Nat × Str) :=
  if s.get? i = some '(' then
    let r := runLenFrom (fun c => c ≠ ')') s (i + 1)
    if r ≥ 1 && s.get? (i + 1 + r) = some ')' then
      let p := i + 2 + r
      let w0 := wsRun s p
      if s.get? (p + w0) = some ':' then
        let w := wsRun s (p + w0 + 1)
        let m := wordRun s (p + w0 + 1 + w)
        if m ≥ 1 then
          let e0 := p + w0 + 1 + w + m
          let w2 := wsRun s e0
          if s.get? (e0 + w2) = some lbChar then
            some (e0 + w2 + 1,
              '(' :: (jsSlice s (i + 1) (i + 1 + r) ++ strL ") " ++ [lbChar]))
          else none
        else none
      else none
    else none
  else none

/-- Line 250: `:\s*React\.\w+(<[^>]+>)?`. -/
def matchColonReactAt (s : Str) (i : Nat) : Option (Nat × Str) :=
  if s.get? i = some ':' then
    let w := wsRun s (i + 1)
    if litAt s (i + 1 + w) (strL "React.") then
      let m := wordRun s (i + 7 + w)
      if m ≥ 1 then
        let e0 := i + 7 + w + m
        if s.get? e0 = some '<' then
          let r := runLenFrom (fun c => c ≠ '>') s (e0 + 1)
          if r ≥ 1 && s.get? (e0 + 1 + r) = some '>' then some (e0 + 2 + r, [])
          else some (e0, [])
        else some (e0, [])
      else none
    else none
  else none

/-- Line 253: `export\s+default\s+(\w+);?\s*`. -/
def matchExportDefaultWordAt (s : Str) (i : Nat) : Option (Nat × Str) :=
  if litAt s i (strL "export") then
    let w := wsRun s (i + 6)
    if w ≥ 1 && litAt s (i + 6 + w) (strL "default") then
      let w2 := wsRun s (i + 13 + w)
      if w2 ≥ 1 then
        let m := wordRun s (i + 13 + w + w2)
        if m ≥ 1 then
          let e := i + 13 + w + w2 + m
          let e1 := if s.get? e = some ';' then e + 1 else e
          some (e1 + wsRun s e1, [])
        else none
      else none
    else none
  else none

/-- Line 254: `export\s+default\s+`. -/
def matchExportDefaultAt (s : Str) (i : Nat) : Option (Nat × Str) :=
  if litAt s i (strL "export") then
    let w := wsRun s (i + 6)
    if w ≥ 1 && litAt s (i + 6 + w) (strL "default") then
      let w2 := wsRun s (i + 13 + w)
      if w2 ≥ 1 then some (i + 13 + w + w2, []) else none
    else none
  else none

/-- Line 255: `export\s+\{[^}]+\};?\s*`. -/
def matchExportBracesAt (s : Str) (i : Nat) : Option (Nat × Str) :=
  if litAt s i (strL "export") then
    let w := wsRun s (i + 6)
    if w ≥ 1 then
      match altBraceEnd s (i + 6 + w) with
      | some e =>
        let e1 := if s.get? e = some ';' then e + 1 else e
        some (e1 + wsRun s e1, [])
      | none => none
    else none
  else none

/-- Line 256: `export\s+(const|function|class|interface|type)\s+` replaced
by `$1 `. -/
def matchExportKeywordAt (s : Str) (i : Nat) : Option (Nat × Str) :=
  if litAt s i (strL "export") then
    let w := wsRun s (i + 6)
    if w ≥ 1 then
      let p := i + 6 + w
      let tryKw := fun (kw : Str) =>
        if litAt s p kw then
          let w2 := wsRun s (p + kw.length)
          if w2 ≥ 1 then some (p + kw.length + w2, kw ++ [' ']) else none
        else none
      (tryKw (strL "const")).orElse (fun _ =>
        (tryKw (strL "function")).orElse (fun _ =>
          (tryKw (strL "class")).orElse (fun _ =>
            (tryKw (strL "interface")).orElse (fun _ => tryKw (strL "type")))))
    else none
  else none

/-- Backtracking helper for line 259: greedy `\s*` ending at a newline. -/
def dnNl (s : Str) (j : Nat) : Nat → Option Nat
  | 0 => if s.get? j = some '\n' then some (j + 1) else none
  | b + 1 =>
    if s.get? (j + b + 1) = some '\n' then some (j + b + 2) else dnNl s j b

/-- Backtracking of the first `\s*` of line 259 (largest split first). -/
def dnA (s : Str) (base : Nat) : Nat → Option Nat
  | 0 =>
    if s.get? base = some '\n' then dnNl s (base + 1) (wsRun s (base + 1))
    else none
  | a + 1 =>
    if s.get? (base + a + 1) = some '\n' then
      match dnNl s (base + a + 2) (wsRun s (base + a + 2)) with
      | some e => some e
      | none => dnA s base a
    else dnA s base a

/-- Line 259: `\n\s*\n\s*\n` replaced by two newlines. -/
def matchTripleNlAt (s : Str) (i : Nat) : Option (Nat × Str) :=
  if s.get? i = some '\n' then
    match dnA s (i + 1) (wsRun s (i + 1)) with
    | some e => some (e, strL "\n\n")
    | none => none
  else none

/-- Lines 229-256 of the per-file transformation, in source order. -/
def stripAnnotations (code : Str) : Str :=
  let c1 := replaceAll matchReactFCAt code
  let c2 := replaceAll matchFCAt c1
  let c3 := replaceAll matchReactElementAt c2
  let c4 := replaceAll matchJSXElementAt c3
  let c5 := replaceAll matchExportInterfaceAt c4
  let c6 := replaceAll matchInterfaceAt c5
  let c7 := replaceAll matchExportTypeBraceAt c6
  let c8 := replaceAll matchTypeBraceAt c7
  let c9 := replaceAll matchTypeSemiAt c8
  let c10 := replaceAll matchColonWordAt c9
  let c11 := replaceAll matchColonGenericAt c10
  let c12 := replaceAll matchParenArrowAt c11
  let c13 := replaceAll matchParenBraceAt c12
  let c14 := replaceAll matchColonReactAt c13
  let c15 := replaceAll matchExportDefaultWordAt c14
  let c16 := replaceAll matchExportDefaultAt c15
  let c17 := replaceAll matchExportBracesAt c16
  replaceAll matchExportKeywordAt c17

/-- Tail `\s+from\s+['"]([^'"]+)['"]` of the `extractImports` regex; returns
the end and the captured package name. -/
def importCaptureTailAt (s : Str) (j : Nat) : Option (Nat × Str) :=
  let w := wsRun s j
  if w ≥ 1 && litAt s (j + w) (strL "from") then
    let j2 := j + w + 4
    let w2 := wsRun s j2
    if w2 ≥ 1 then
      match s.get? (j2 + w2) with
      | some q =>
        if quoteChar q then
          let j3 := j2 + w2 + 1
          let r := runLenFrom (fun c => !quoteChar c) s j3
          if r ≥ 1 then
            match s.get? (j3 + r) with
            | some q2 =>
              if quoteChar q2 then some (j3 + r + 1, jsSlice s j3 (j3 + r))
              else none
            | none => none
          else none
        else none
      | none => none
    else none
  else none

/-- One match attempt of the `extractImports` regex (part_002 line 39). -/
def matchExtractImportAt (s : Str) (i : Nat) : Option (Nat × Str) :=
  if litAt s i (strL "import") then
    let w := wsRun s (i + 6)
    if w ≥ 1 then
      let p := i + 6 + w
      let m := wordRun s p
      let cands : List Nat :=
        (altStarEnd s p).toList ++ (altBraceEnd s p).toList ++
          (if m ≥ 1 then [p + m] else [])
      cands.findSome? (fun e => importCaptureTailAt s e)
    else none
  else none

/-- The `exec` collection loop of `extractImports`. -/
def extractImportsGo (s : Str) : Nat → Nat → List Str
  | 0, _ => []
  | fuel + 1, i =>
    if i < s.length then
      match matchExtractImportAt s i with
      | some (e, pkg) => pkg :: extractImportsGo s fuel e
      | none => extractImportsGo s fuel (i + 1)
    else []

/-- `extractImports` (part_002 lines 37-51): captured package names that are
neither relative nor the framework itself, deduplicated. -/
def extractImports (code : Str) : List Str :=
  ((extractImportsGo code (code.length + 1) 0).filter (fun pkg =>
    !(pkg.head? == some '.') && !(pkg.head? == some '/') &&
      pkg != strL "react" && pkg != strL "react-dom")).eraseDups

/-- A successfully assembled bundle. -/
structure Bundle where
  code : Str
  styles : Str
  imports : List Str
deriving DecidableEq, Repr

/-- Result of `bundledCode`: a bundle, or the thrown error message. -/
inductive BundleResult where
  | ok (b : Bundle)
  | error (msg : Str)
deriving DecidableEq, Repr

/-- Script-language tags accepted by the bundler (line 183). -/
def jsxLangTags : List Str :=
  [strL "jsx", strL "tsx", strL "react", strL "typescript-react",
   strL "javascript", strL "typescript"]

/-- The entry synthesized when no `App` component exists (line 270). -/
def autoAppFor (firstComponent : Str) : Str :=
  strL "\n\n// Auto-generated App\nfunction App() \x7b\n  return <" ++
    firstComponent ++ strL " />;\n\x7d\n"

/-- Accumulator of the per-file loop of `bundledCode`. -/
structure FoldSt where
  combined : Str
  hasApp : Bool
  names : List Str
deriving DecidableEq, Repr

/-- One iteration of `sortedFiles.forEach` (lines 213-264): detect the
component name on the original content, strip imports, test for the entry
component on the stripped code, apply the annotation strips and the
blank-line collapse, and append the trimmed body with separator and name
comment. -/
def bundleStep (st : FoldSt) (idx : Nat) (f : CodeFile) : FoldSt :=
  let componentName := extractComponentName f.content
  let code1 := stripImports f.content
  let isApp := componentName = some (strL "App") || appEntryTest code1
  let code2 := replaceAll matchTripleNlAt (stripAnnotations code1)
  let piece :=
    (if idx > 0 then strL "\n\n" else []) ++
    (match componentName with
     | some n => strL "// " ++ n ++ strL "\n"
     | none => []) ++
    jsTrim code2 ++ strL "\n"
  { combined := st.combined ++ piece,
    hasApp := st.hasApp || isApp,
    names := st.names ++ (match componentName with | some n => [n] | none => []) }

/-- Line 182: the script-language files of the set. -/
def jsxFilesOf (files : List CodeFile) : List CodeFile :=
  files.filter (fun f => jsxLangTags.contains (toLowerStr f.language))

/-- Lines 201-207: `[...jsxFiles].sort(...)` with the has-App comparator is
a stable sort on a boolean key, i.e. the corresponding stable partition. -/
def sortedFilesOf (files : List CodeFile) : List CodeFile :=
  (jsxFilesOf files).filter (fun f => !hasAppMarker f.content) ++
    (jsxFilesOf files).filter (fun f => hasAppMarker f.content)

/-- Lines 209-264: the per-file loop over the sorted files. -/
def bundleFold (files : List CodeFile) : FoldSt :=
  (sortedFilesOf files).enum.foldl (fun st p => bundleStep st p.1 p.2)
    { combined := [], hasApp := false, names := [] }

/-- `ReactPreview.bundledCode` (part_002 lines 177-282). -/
def bundledCode (files : List CodeFile) : BundleResult :=
  let cssFiles := files.filter (fun f => toLowerStr f.language == strL "css")
  let styles := List.intercalate (strL "\n\n") (cssFiles.map (fun f => f.content))
  if (jsxFilesOf files).isEmpty then .error (strL "No React component found.")
  else
    let allImports := (jsxFilesOf files).flatMap (fun f => extractImports f.content)
    let st := bundleFold files
    if !st.hasApp then
      match st.names with
      | firstComponent :: _ =>
        if firstComponent ≠ strL "App" then
          .ok { code := jsTrim (st.combined ++ autoAppFor firstComponent),
                styles := styles, imports := allImports.eraseDups }
        else
          .ok { code := jsTrim st.combined, styles := styles,
                imports := allImports.eraseDups }
      | [] => .error (strL "No valid component found.")
    else
      .ok { code := jsTrim st.combined, styles := styles,
            imports := allImports.eraseDups }

example : bundledCode [⟨strL "css", strL "body color red"⟩] =
    .error (strL "No React component found.") := by decide

example : bundledCode [⟨strL "jsx", strL "function widget() \x7b return 1; \x7d"⟩] =
    .error (strL "No valid component found.") := by decide

example :
    (match bundledCode [⟨strL "jsx", strL "function Widget() \x7b return <div>hi</div>; \x7d"⟩] with
     | .ok b =>
        (strL "function App() \x7b\n  return <Widget />;\n\x7d").isSuffixOf b.code
     | .error _ => false) = true := by decide

example : parseCodeBlocks (strL "```js\nlet x = 1\n```") =
    [{ bstart := 0, bstop := 19, language := strL "js", code := strL "let x = 1" }] := by
  decide

example : extractCodeFiles (strL "```c++\nX\n```") = [(strL "c++", strL "X")] := by
  decide

example : extractCodeFilesRegex (strL "```c++\nX\n```") = [] := by
  decide

example : extractCodeFiles (strL "```sql\nSELECT 1;\n```") = [] := by
  decide

/-! ## Theorems -/

/-! ### C9: remote-execution result precedence -/

/-- The claim as stated is false at compile output empty, stdout a single
space, stderr empty: the streams are not both empty, yet the canned message
is displayed instead of the space as success output. -/
theorem classifyRun_whitespace_canned :
    classifyRun [] (strL " ") [] = RunDisplay.canned ∧ strL " " ≠ [] := by
  decide

/-- C9 (amended): non-empty-after-trimming compile output is displayed as a
compilation error even when run output exists; otherwise non-empty stderr
with empty stdout is a runtime error; otherwise the combined stdout+stderr is
displayed as success output when it trims non-empty, and the canned message
is displayed when the combined output trims to nothing (in particular when
both streams are empty). -/
theorem classifyRun_precedence (co so se : Str) :
    (jsTrim co ≠ [] →
      classifyRun co so se = RunDisplay.compileError (strL "Compilation Error:\n" ++ co)) ∧
    (jsTrim co = [] → se ≠ [] → so = [] →
      classifyRun co so se = RunDisplay.runtimeError se) ∧
    (jsTrim co = [] → (se = [] ∨ so ≠ []) →
      jsTrim (so ++ if se = [] then [] else '\n' :: se) ≠ [] →
      classifyRun co so se = RunDisplay.success (so ++ if se = [] then [] else '\n' :: se)) ∧
    (jsTrim co = [] → (se = [] ∨ so ≠ []) →
      jsTrim (so ++ if se = [] then [] else '\n' :: se) = [] →
      classifyRun co so se = RunDisplay.canned) := by
  have hco_of : co = [] → jsTrim co = [] := by rintro rfl; rfl
  refine ⟨?_, ?_, ?_, ?_⟩
  · intro h1
    have hco : co ≠ [] := fun e => h1 (hco_of e)
    simp [classifyRun, List.isEmpty_iff, hco, h1]
  · intro h1 h2 h3
    simp [classifyRun, List.isEmpty_iff, h1, h2, h3]
  · intro h1 h2 h3
    have hcase : ¬(se ≠ [] ∧ so = []) := by
      rcases h2 with h | h
      · exact fun hc => hc.1 h
      · exact fun hc => h hc.2
    rcases Classical.em (se = []) with hse | hse
    · simp only [hse, if_pos, List.append_nil] at h3 ⊢
      simp [classifyRun, List.isEmpty_iff, h1, hse, h3]
    · have hso : so ≠ [] := by
        rcases h2 with h | h
        · exact absurd h hse
        · exact h
      simp only [if_neg hse] at h3 ⊢
      simp [classifyRun, List.isEmpty_iff, h1, hse, hso, h3]
  · intro h1 h2 h3
    rcases Classical.em (se = []) with hse | hse
    · simp only [hse, if_pos, List.append_nil] at h3
      simp [classifyRun, List.isEmpty_iff, h1, hse, h3]
    · have hso : so ≠ [] := by
        rcases h2 with h | h
        · exact absurd h hse
        · exact h
      simp only [if_neg hse] at h3
      simp [classifyRun, List.isEmpty_iff, h1, hse, hso, h3]

/-- Concrete instances of the four branches of `classifyRun_precedence`. -/
theorem classifyRun_precedence_witness :
    classifyRun (strL "boom") (strL "out") [] =
        RunDisplay.compileError (strL "Compilation Error:\nboom") ∧
      classifyRun [] [] (strL "err") = RunDisplay.runtimeError (strL "err") ∧
      classifyRun [] (strL "hi") (strL "e") = RunDisplay.success (strL "hi\ne") ∧
      classifyRun [] [] [] = RunDisplay.canned := by
  refine ⟨(classifyRun_precedence (strL "boom") (strL "out") []).1 (by decide),
          (classifyRun_precedence [] [] (strL "err")).2.1 (by decide) (by decide) (by decide),
          ?_, ?_⟩
  · exact (classifyRun_precedence [] (strL "hi") (strL "e")).2.2.1 (by decide)
      (Or.inr (by decide)) (by decide)
  · exact (classifyRun_precedence [] [] []).2.2.2 (by decide) (Or.inl rfl) (by decide)

/-! ### C4: canvas single-open invariant -/

theorem emitCanvasChange_some_opens (i : Nat) (st : CanvasState) :
    (emitCanvasChange (some i) st).opens = st.opens.filter (fun j => j == i) := rfl

theorem localOpen_opens (i : Nat) (st : CanvasState) :
    (localOpen i st).opens = if i ∈ st.opens then st.opens else i :: st.opens := by
  unfold localOpen
  by_cases h : i ∈ st.opens <;> simp [h]

theorem localOpen_nodup {st : CanvasState} (hn : st.opens.Nodup) (i : Nat) :
    (localOpen i st).opens.Nodup := by
  rw [localOpen_opens]
  by_cases h : i ∈ st.opens <;> simp [h, hn]

theorem localOpen_mem (i : Nat) (st : CanvasState) : i ∈ (localOpen i st).opens := by
  rw [localOpen_opens]
  by_cases h : i ∈ st.opens <;> simp [h]

theorem nodup_all_eq_length_le_one {l : List Nat} {i : Nat}
    (hn : l.Nodup) (h : ∀ x ∈ l, x = i) : l.length ≤ 1 := by
  match l with
  | [] => simp
  | [x] => simp
  | x :: y :: t =>
    exfalso
    have hx := h x (by simp)
    have hy := h y (by simp)
    have hxy : x ≠ y := by
      have h2 := hn
      simp only [List.nodup_cons, List.mem_cons] at h2
      exact fun e => h2.1 (Or.inl e)
    exact hxy (hx.trans hy.symm)

theorem filter_beq_length_le_one {l : List Nat} {i : Nat} (hn : l.Nodup) :
    (l.filter (fun j => j == i)).length ≤ 1 := by
  have h : ∀ x ∈ l.filter (fun j => j == i), x = i := by
    intro x hx
    simpa using List.of_mem_filter hx
  exact nodup_all_eq_length_le_one (hn.filter _) h

theorem filter_beq_of_mem {l : List Nat} {i : Nat} (hn : l.Nodup) (hm : i ∈ l) :
    l.filter (fun j => j == i) = [i] := by
  have hmem : i ∈ l.filter (fun j => j == i) := List.mem_filter.2 ⟨hm, by simp⟩
  have hlen := @filter_beq_length_le_one l i hn
  match hfe : l.filter (fun j => j == i) with
  | [] => rw [hfe] at hmem; simp at hmem
  | [x] =>
    rw [hfe] at hmem
    simp at hmem
    rw [hmem]
  | x :: y :: t => rw [hfe] at hlen; simp at hlen

theorem emit_localOpen_opens {st : CanvasState} (hn : st.opens.Nodup) (i : Nat) :
    (emitCanvasChange (some i) (localOpen i st)).opens = [i] := by
  rw [emitCanvasChange_some_opens]
  exact filter_beq_of_mem (localOpen_nodup hn i) (localOpen_mem i st)

theorem stepCanvas_userOpen (st : CanvasState) (hn : st.opens.Nodup) (i : Nat) :
    (stepCanvas st (CanvasOp.userOpen i)).opens = [i] := by
  simp only [stepCanvas]
  split
  · exact @emit_localOpen_opens (emitCanvasChange none st) hn i
  · exact emit_localOpen_opens hn i

theorem stepCanvas_inv {st : CanvasState} (hn : st.opens.Nodup)
    (hl : st.opens.length ≤ 1) (op : CanvasOp) :
    (stepCanvas st op).opens.Nodup ∧ (stepCanvas st op).opens.length ≤ 1 := by
  cases op with
  | userOpen i =>
    rw [stepCanvas_userOpen st hn i]
    exact ⟨by simp, by simp⟩
  | autoOpen i =>
    have h : (stepCanvas st (CanvasOp.autoOpen i)).opens = [i] :=
      emit_localOpen_opens hn i
    rw [h]
    exact ⟨by simp, by simp⟩
  | userClose i =>
    exact ⟨List.Nodup.filter _ hn, le_trans (List.length_filter_le _ _) hl⟩
  | uiEvent i =>
    simp only [stepCanvas]
    split
    · exact ⟨List.Nodup.filter _ hn, le_trans (List.length_filter_le _ _) hl⟩
    · exact ⟨hn, hl⟩

theorem runCanvas_inv (ops : List CanvasOp) :
    (runCanvas ops).opens.Nodup ∧ (runCanvas ops).opens.length ≤ 1 := by
  suffices h : ∀ (l : List CanvasOp) (st : CanvasState), st.opens.Nodup →
      st.opens.length ≤ 1 →
      (l.foldl stepCanvas st).opens.Nodup ∧ (l.foldl stepCanvas st).opens.length ≤ 1 by
    exact h ops canvasInit (by simp [canvasInit]) (by simp [canvasInit])
  intro l
  induction l with
  | nil => intro st h1 h2; exact ⟨h1, h2⟩
  | cons op rest ih =>
    intro st h1 h2
    obtain ⟨h3, h4⟩ := stepCanvas_inv h1 h2 op
    exact ih _ h3 h4

/-- C4: over every sequence of canvas operations (user opens, user closes,
auto-opens, cross-cutting UI closes) across any number of messages, at most
one message's canvas is open once the synchronous broadcast has been
processed; and opening message `B`'s canvas from any reachable state (in
particular while another message's canvas is open) leaves exactly one open
canvas, `B`'s. -/
theorem canvas_single_open (ops : List CanvasOp) (B : Nat) :
    (runCanvas ops).opens.length ≤ 1 ∧
      (runCanvas (ops ++ [CanvasOp.userOpen B])).opens = [B] := by
  obtain ⟨hnod, hlen⟩ := runCanvas_inv ops
  refine ⟨hlen, ?_⟩
  have hrw : runCanvas (ops ++ [CanvasOp.userOpen B]) =
      stepCanvas (runCanvas ops) (CanvasOp.userOpen B) := by
    simp [runCanvas, List.foldl_append]
  rw [hrw]
  exact stepCanvas_userOpen _ hnod B

/-! ### C2: tables never contained in code blocks, but partial overlap is
possible -/

theorem tableCandidate_spans {s : Str} {m : Nat × Nat} {t : TableSeg}
    (h : tableCandidate s m = some t) : t.tstart = m.1 ∧ t.tstop = m.2 := by
  unfold tableCandidate at h
  split at h
  · split at h
    · cases h
      exact ⟨rfl, rfl⟩
    · exact absurd h (by simp)
  · exact absurd h (by simp)

/-- The claim as stated is false: on this input a pipe table whose span
partially overlaps the detected code block's span is emitted (the
containment test `tableStart >= b.start && tableEnd <= b.end` does not catch
partial overlap), and both the table segment and the code segment appear in
the parsed output. -/
theorem table_code_overlap_emitted :
    (∃ t ∈ tableBlocksOf (strL "|h|\n|-|\n|a```x|\ny\n```\n"),
      ∃ c ∈ parseCodeBlocks (strL "|h|\n|-|\n|a```x|\ny\n```\n"),
        t.tstart < c.bstop ∧ c.bstart < t.tstop ∧
          ¬(c.bstart ≤ t.tstart ∧ t.tstop ≤ c.bstop)) ∧
      Segment.table [strL "h"] [[strL "a```x"]] ∈
        parseAiResponse (strL "|h|\n|-|\n|a```x|\ny\n```\n") := by
  decide

/-- C2 (amended): a candidate pipe table whose span is fully contained in a
detected code block's span is never emitted as a table; a table span that
only partially overlaps a code block span may still be emitted. -/
theorem tableBlocks_never_inside_code (s : Str) :
    ((tableBlocksOf s).all fun t =>
      !((parseCodeBlocks s).any fun c =>
        decide (t.tstart ≥ c.bstart) && decide (t.tstop ≤ c.bstop))) = true := by
  rw [List.all_eq_true]
  intro t ht
  obtain ⟨m, hm, hf⟩ := List.mem_filterMap.1 ht
  by_cases hin :
      ((parseCodeBlocks s).any fun b => decide (m.1 ≥ b.bstart) && decide (m.2 ≤ b.bstop)) = true
  · rw [if_pos hin] at hf
    exact absurd hf (by simp)
  · rw [if_neg hin] at hf
    obtain ⟨h1, h2⟩ := tableCandidate_spans hf
    rw [h1, h2]
    simpa using hin

/-! ### C6: non-empty messages and the fallback segment -/

/-- The claim as stated is false: the one-character message made of a single
backtick is non-empty but produces zero segments (the cleaning pass erases
it and the fallback drops the empty result), and a whitespace-only message
is non-empty but produces zero segments as well. -/
theorem parseAiResponse_empty_outputs :
    parseAiResponse (strL "`") = [] ∧ strL "`" ≠ [] ∧
      parseAiResponse (strL " ") = [] ∧ strL " " ≠ [] := by
  decide

/-- C6 (amended): whenever the input trims to something non-empty and its
markdown-cleaned form also trims to something non-empty, `parseAiResponse`
returns at least one segment (the fallback emits the cleaned whole input
when the merged pass produced nothing). -/
theorem parseAiResponse_nonempty (s : Str)
    (h1 : jsTrim s ≠ []) (h2 : jsTrim (cleanText s) ≠ []) :
    1 ≤ (parseAiResponse s).length := by
  have hs : s ≠ [] := by
    intro e
    exact h1 (by rw [e]; rfl)
  unfold parseAiResponse
  rw [if_neg (by simpa [List.isEmpty_iff] using hs)]
  by_cases hc : (assembleSegs s (sortByStart (allBlocksOf s)) 0) = []
  · rw [if_pos (by simp [hc, List.isEmpty_iff, h1])]
    rw [if_neg (by simpa [List.isEmpty_iff] using h2)]
    simp
  · rw [if_neg (by simp [List.isEmpty_iff, hc])]
    have := List.length_pos.2 hc
    omega

/-- Concrete instance of `parseAiResponse_nonempty`. -/
theorem parseAiResponse_nonempty_witness :
    1 ≤ (parseAiResponse (strL "hello")).length :=
  parseAiResponse_nonempty (strL "hello") (by decide) (by decide)

/-! ### C7: extraction allow-list and the python/sql/jsx example -/

theorem extractScanF_lang_allowed (s : Str) :
    ∀ (fuel pos : Nat) (p : Str × Str), p ∈ extractScanF s fuel pos →
      canvasLanguages.contains (toLowerStr p.1) = true := by
  intro fuel
  induction fuel with
  | zero =>
    intro pos p h
    simp [extractScanF] at h
  | succ f ih =>
    intro pos p h
    rw [extractScanF] at h
    by_cases hp : pos < s.length
    · rw [if_pos hp] at h
      cases hidx : jsIndexOf s fenceStr pos with
      | none => simp only [hidx] at h; simp at h
      | some cs =>
        simp only [hidx] at h
        cases hnl : jsIndexOf s nlStr (cs + 3) with
        | none => simp only [hnl] at h; exact ih _ p h
        | some le =>
          simp only [hnl] at h
          cases hcl : findClose s (le + 1) with
          | none => simp only [hcl] at h; simp at h
          | some ce =>
            simp only [hcl] at h
            rcases List.mem_append.1 h with h' | h'
            · by_cases hall : canvasLanguages.contains
                  (toLowerStr (jsTrim (jsSlice s (cs + 3) le))) = true
              · rw [if_pos hall] at h'
                have : p = (jsTrim (jsSlice s (cs + 3) le),
                    jsTrim (jsSlice s (le + 1) ce)) := by simpa using h'
                rw [this]
                exact hall
              · rw [if_neg hall] at h'
                simp at h'
            · exact ih _ p h'
    · rw [if_neg hp] at h
      simp at h

/-- C7: every extracted file's lower-cased language tag is in the fixed
canvas allow-list; and on a message with fenced blocks tagged `python`,
`sql` and `jsx`, extraction keeps exactly the python and jsx blocks (sql is
not allow-listed) and `isReactCode` holds for that file set since jsx is
present. -/
theorem extractCodeFiles_allowlist (s : Str) :
    (∀ p ∈ extractCodeFiles s, canvasLanguages.contains (toLowerStr p.1) = true) ∧
      extractCodeFiles
          (strL "```python\nprint(1)\n```\nmid\n```sql\nSELECT 1\n```\n```jsx\nconst A = 1\n```") =
        [(strL "python", strL "print(1)"), (strL "jsx", strL "const A = 1")] ∧
      isReactCode
        ((extractCodeFiles
          (strL "```python\nprint(1)\n```\nmid\n```sql\nSELECT 1\n```\n```jsx\nconst A = 1\n```")).map
            (fun p => ⟨p.1, p.2⟩)) = true := by
  refine ⟨fun p hp => extractScanF_lang_allowed s _ _ p hp, by decide, by decide⟩

/-! ### C8: bundle assembly outcomes -/

theorem dropWhile_of_head_false (p : Char → Bool) (u : Str)
    (h : ∀ c, u.head? = some c → p c = false) : u.dropWhile p = u := by
  cases u with
  | nil => rfl
  | cons c r => simp [List.dropWhile_cons, h c rfl]

theorem dropWhile_append_of_head (p : Char → Bool) (t : Str)
    (ht : ∀ c, t.head? = some c → p c = false) :
    ∀ x : Str, ∃ x2, (x ++ t).dropWhile p = x2 ++ t := by
  intro x
  induction x with
  | nil => exact ⟨[], by simpa using dropWhile_of_head_false p t ht⟩
  | cons c x' ih =>
    by_cases h : p c
    · obtain ⟨x2, hx2⟩ := ih
      exact ⟨x2, by simp [List.dropWhile_cons, h, hx2]⟩
    · exact ⟨c :: x', by simp [List.dropWhile_cons, h]⟩

/-- Trimming `x ++ t ++ "\n"` keeps a block `t` that starts and ends with
non-whitespace intact as a suffix. -/
theorem jsTrim_append_keep_suffix (x t : Str) (h1 : t ≠ [])
    (hhead : ∀ c, t.head? = some c → isWs c = false)
    (hlast : ∀ c, t.getLast? = some c → isWs c = false) :
    ∃ x2, jsTrim (x ++ t ++ ['\n']) = x2 ++ t := by
  have hh : ∀ c, (t ++ ['\n']).head? = some c → isWs c = false := by
    intro c hc
    cases t with
    | nil => exact absurd rfl h1
    | cons a r =>
      simp only [List.cons_append, List.head?_cons] at hc
      exact hhead c (by rw [List.head?_cons]; exact hc)
  obtain ⟨x2, hx2⟩ := dropWhile_append_of_head isWs (t ++ ['\n']) hh x
  refine ⟨x2, ?_⟩
  unfold jsTrim
  rw [List.append_assoc, hx2]
  have hrev : (x2 ++ (t ++ ['\n'])).reverse = '\n' :: (t.reverse ++ x2.reverse) := by
    simp [List.reverse_append]
  rw [hrev]
  have hws : isWs '\n' = true := by decide
  rw [List.dropWhile_cons, if_pos hws]
  obtain ⟨c, r, hcr⟩ : ∃ c r, t.reverse = c :: r := by
    cases ht : t.reverse with
    | nil => exact absurd (by simpa using congrArg List.reverse ht) h1
    | cons c r => exact ⟨c, r, rfl⟩
  have hcl : t.getLast? = some c := by
    rw [← List.head?_reverse, hcr]
    rfl
  have hcw : isWs c = false := hlast c hcl
  have ht2 : t = r.reverse ++ [c] := by
    rw [← List.reverse_reverse t, hcr, List.reverse_cons]
  rw [hcr, ht2]
  simp [List.dropWhile_cons, hcw, List.reverse_append, List.append_assoc]

/-- The synthesized entry component (without its surrounding comment and
final newline). -/
def autoAppEntry (n : Str) : Str :=
  strL "function App() \x7b\n  return <" ++ n ++ strL " />;\n\x7d"

theorem autoAppFor_decomp (n : Str) (x : Str) :
    x ++ autoAppFor n =
      (x ++ strL "\n\n// Auto-generated App\n") ++ autoAppEntry n ++ ['\n'] := by
  have h1 : strL "\n\n// Auto-generated App\nfunction App() \x7b\n  return <" =
      strL "\n\n// Auto-generated App\n" ++ strL "function App() \x7b\n  return <" := by
    decide
  have h2 : strL " />;\n\x7d\n" = strL " />;\n\x7d" ++ ['\n'] := by decide
  rw [autoAppFor, autoAppEntry, h1, h2]
  simp [List.append_assoc]

theorem autoAppEntry_head (n : Str) :
    ∀ c, (autoAppEntry n).head? = some c → isWs c = false := by
  intro c hc
  have hdec : strL "function App() \x7b\n  return <" =
      'f' :: strL "unction App() \x7b\n  return <" := by decide
  rw [autoAppEntry, hdec] at hc
  simp only [List.cons_append, List.head?_cons] at hc
  cases hc
  decide

theorem autoAppEntry_last (n : Str) :
    ∀ c, (autoAppEntry n).getLast? = some c → isWs c = false := by
  intro c hc
  rw [autoAppEntry, List.append_assoc] at hc
  rw [List.getLast?_append_of_ne_nil _ (by simp [show (strL " />;\n\x7d") ≠ [] from by decide])] at hc
  rw [List.getLast?_append_of_ne_nil _ (by decide)] at hc
  have : (strL " />;\n\x7d").getLast? = some rbChar := by decide
  rw [this] at hc
  cases hc
  decide

theorem autoAppEntry_ne_nil (n : Str) : autoAppEntry n ≠ [] := by
  rw [autoAppEntry]
  have hdec : strL "function App() \x7b\n  return <" =
      'f' :: strL "unction App() \x7b\n  return <" := by decide
  rw [hdec]
  simp

/-- C8: (a) if the file set has no script/markup-script file, assembly fails
with the "No React component found." error; (b) if script files exist, none
contains an `App` entry, and at least one component identifier was detected,
assembly succeeds and its code ends with the synthesized
`function App()` entry rendering the first detected component; (c) if no
component identifier was detected at all, assembly fails with the
"No valid component found." error. -/
theorem bundledCode_spec :
    (∀ files : List CodeFile, jsxFilesOf files = [] →
      bundledCode files = BundleResult.error (strL "No React component found.")) ∧
    (∀ (files : List CodeFile) (n : Str) (rest : List Str),
      jsxFilesOf files ≠ [] → (bundleFold files).hasApp = false →
      (bundleFold files).names = n :: rest → n ≠ strL "App" →
      ∃ b, bundledCode files = BundleResult.ok b ∧
        ∃ p, b.code = p ++ autoAppEntry n) ∧
    (∀ files : List CodeFile,
      jsxFilesOf files ≠ [] → (bundleFold files).hasApp = false →
      (bundleFold files).names = [] →
      bundledCode files = BundleResult.error (strL "No valid component found.")) := by
  refine ⟨?_, ?_, ?_⟩
  · intro files h
    unfold bundledCode
    rw [if_pos (by simp [h, List.isEmpty_iff])]
  · intro files n rest hne happ hnames hnotApp
    unfold bundledCode
    rw [if_neg (by simp [List.isEmpty_iff, hne])]
    simp only [happ, hnames, Bool.not_false, reduceIte]
    rw [if_pos hnotApp]
    refine ⟨_, rfl, ?_⟩
    obtain ⟨x2, hx2⟩ := jsTrim_append_keep_suffix
      ((bundleFold files).combined ++ strL "\n\n// Auto-generated App\n")
      (autoAppEntry n) (autoAppEntry_ne_nil n) (autoAppEntry_head n) (autoAppEntry_last n)
    refine ⟨x2, ?_⟩
    rw [autoAppFor_decomp n (bundleFold files).combined]
    exact hx2
  · intro files hne happ hnames
    unfold bundledCode
    rw [if_neg (by simp [List.isEmpty_iff, hne])]
    simp only [happ, hnames, Bool.not_false, reduceIte]

/-- Concrete instances of all three branches of `bundledCode_spec`: a lone
stylesheet fails with "No React component found."; a single file declaring
`function Widget()` succeeds with a bundle whose entry renders `<Widget />`;
a single file declaring only the lowercase `function widget()` fails with
"No valid component found.". -/
theorem bundledCode_spec_witness :
    bundledCode [⟨strL "css", strL "body color red"⟩] =
        BundleResult.error (strL "No React component found.") ∧
      (∃ b, bundledCode [⟨strL "jsx", strL "function Widget() \x7b return <div>hi</div>; \x7d"⟩] =
          BundleResult.ok b ∧ ∃ p, b.code = p ++ autoAppEntry (strL "Widget")) ∧
      bundledCode [⟨strL "jsx", strL "function widget() \x7b return 1; \x7d"⟩] =
        BundleResult.error (strL "No valid component found.") := by
  refine ⟨bundledCode_spec.1 _ (by decide),
          bundledCode_spec.2.1 _ (strL "Widget") [] (by decide) (by decide) (by decide)
            (by decide),
          bundledCode_spec.2.2 _ (by decide) (by decide) (by decide)⟩

/-! ### C10: component-name detection -/

theorem take_runLen (p : Char → Bool) (u : Str) :
    u.take ((u.takeWhile p).length) = u.takeWhile p := by
  induction u with
  | nil => rfl
  | cons c rest ih =>
    by_cases h : p c
    · simp [List.takeWhile_cons, h, ih]
    · simp [List.takeWhile_cons, h]

theorem all_takeWhile (p : Char → Bool) (u : Str) : (u.takeWhile p).all p = true := by
  induction u with
  | nil => rfl
  | cons c rest ih =>
    by_cases h : p c
    · simp [List.takeWhile_cons, h, ih]
    · simp [List.takeWhile_cons, h]

theorem jsSlice_drop (s : Str) (a k : Nat) : jsSlice s a (a + k) = (s.drop a).take k := by
  unfold jsSlice
  rw [List.drop_take]
  congr 1
  omega

theorem capNameAt_shape {s : Str} {i : Nat} {n : Str} (h : capNameAt s i = some n) :
    ∃ c m, n = c :: m ∧ c.isUpper = true ∧ m ≠ [] ∧ m.all isWordChar = true := by
  unfold capNameAt at h
  cases hg : s.get? i with
  | none => rw [hg] at h; exact absurd h (by simp)
  | some c =>
    rw [hg] at h
    simp only at h
    by_cases hu : c.isUpper = true
    · rw [if_pos hu] at h
      by_cases hm : wordRun s (i + 1) ≥ 1
      · rw [if_pos hm] at h
        injection h with h
        have hsl : jsSlice s (i + 1) (i + 1 + wordRun s (i + 1)) =
            (s.drop (i + 1)).takeWhile isWordChar := by
          rw [jsSlice_drop]
          unfold wordRun runLenFrom
          exact take_runLen _ _
        refine ⟨c, _, h.symm, hu, ?_, ?_⟩
        · rw [hsl]
          intro he
          unfold wordRun runLenFrom at hm
          rw [he] at hm
          simp at hm
        · rw [hsl]
          exact all_takeWhile _ _
      · rw [if_neg hm] at h
        exact absurd h (by simp)
    · rw [if_neg hu] at h
      exact absurd h (by simp)

theorem capNameAt_chars {s : Str} {i : Nat} {n : Str} (h : capNameAt s i = some n) :
    ((s.get? i).elim false Char.isUpper) = true ∧
      ((s.get? (i + 1)).elim false isWordChar) = true := by
  unfold capNameAt at h
  cases hg : s.get? i with
  | none => rw [hg] at h; exact absurd h (by simp)
  | some c =>
    rw [hg] at h
    simp only at h
    by_cases hu : c.isUpper = true
    · by_cases hm : wordRun s (i + 1) ≥ 1
      · refine ⟨by simpa using hu, ?_⟩
        unfold wordRun runLenFrom at hm
        cases hd : s.drop (i + 1) with
        | nil => rw [hd] at hm; simp at hm
        | cons d rest =>
          rw [hd] at hm
          have hw : isWordChar d = true := by
            by_cases hw : isWordChar d
            · exact hw
            · rw [List.takeWhile_cons, if_neg hw] at hm; simp at hm
          have hgd : s.get? (i + 1) = some d := by
            have h2 := congrArg List.head? hd
            rw [List.head?_drop] at h2
            simpa [List.get?_eq_getElem?] using h2
          rw [hgd]
          simpa using hw
      · rw [if_pos hu, if_neg hm] at h
        exact absurd h (by simp)
    · rw [if_neg hu] at h
      exact absurd h (by simp)

theorem funcNameAt_cap {s : Str} {i : Nat} {n : Str} (h : funcNameAt s i = some n) :
    ∃ j, capNameAt s j = some n := by
  unfold funcNameAt at h
  simp only [] at h
  split at h
  · split at h
    · exact ⟨_, h⟩
    · exact absurd h (by simp)
  · exact absurd h (by simp)

theorem constNameAt_cap {s : Str} {i : Nat} {n : Str} (h : constNameAt s i = some n) :
    ∃ j, capNameAt s j = some n := by
  unfold constNameAt at h
  simp only [] at h
  split at h
  · split at h
    · cases hc : capNameAt s _ with
      | none => rw [hc] at h; exact absurd h (by simp)
      | some n2 =>
        rw [hc] at h
        simp only at h
        split at h
        · cases h; exact ⟨_, hc⟩
        · exact absurd h (by simp)
    · exact absurd h (by simp)
  · exact absurd h (by simp)

theorem exportDefaultNameAt_cap {s : Str} {i : Nat} {n : Str}
    (h : exportDefaultNameAt s i = some n) : ∃ j, capNameAt s j = some n := by
  unfold exportDefaultNameAt at h
  simp only [] at h
  split at h
  · split at h
    · split at h
      · exact ⟨_, h⟩
      · exact absurd h (by simp)
    · exact absurd h (by simp)
  · exact absurd h (by simp)

theorem scanFor_some {f : Str → Nat → Option Str} {s : Str} :
    ∀ {fuel i : Nat} {n : Str}, scanFor f s fuel i = some n → ∃ j, f s j = some n := by
  intro fuel
  induction fuel with
  | zero => intro i n h; exact absurd h (by simp [scanFor])
  | succ fl ih =>
    intro i n h
    rw [scanFor] at h
    split at h
    · cases hf : f s i with
      | none => rw [hf] at h; simp only at h; exact ih h
      | some r => rw [hf] at h; simp only at h; cases h; exact ⟨i, hf⟩
    · exact absurd h (by simp)

theorem scanFor_none {f : Str → Nat → Option Str} {s : Str}
    (hall : ∀ j, f s j = none) : ∀ fuel i, scanFor f s fuel i = none := by
  intro fuel
  induction fuel with
  | zero => intro i; rfl
  | succ fl ih =>
    intro i
    rw [scanFor]
    split
    · rw [hall i]
      exact ih (i + 1)
    · rfl

/-- C10: `extractComponentName` only ever returns a name shaped
`[A-Z]\w+` (an upper-case letter followed by at least one word character)
captured from a `function`/`const …=`/`export default` context, with the
function-declaration pattern taking priority; on source whose declarations
are all lowercase-initial (or single-character) it returns `none`, so a
component-only file set with such names (and no `App`) fails assembly with
the "No valid component found." error even though it contains renderable
components. -/
theorem extractComponentName_spec (code : Str) :
    (∀ n, extractComponentName code = some n →
      (∃ c m, n = c :: m ∧ c.isUpper = true ∧ m ≠ [] ∧ m.all isWordChar = true) ∧
      (∃ i, funcNameAt code i = some n ∨ constNameAt code i = some n ∨
        exportDefaultNameAt code i = some n)) ∧
    ((∀ i, i < code.length → ¬(((code.get? i).elim false Char.isUpper) = true ∧
        ((code.get? (i + 1)).elim false isWordChar) = true)) →
      extractComponentName code = none) ∧
    (∀ n, scanFor funcNameAt code (code.length + 1) 0 = some n →
      extractComponentName code = some n) := by
  refine ⟨?_, ?_, ?_⟩
  · intro n h
    unfold extractComponentName at h
    cases h1 : scanFor funcNameAt code (code.length + 1) 0 with
    | some r =>
      rw [h1] at h
      simp only at h
      cases h
      obtain ⟨j, hj⟩ := scanFor_some h1
      obtain ⟨j2, hj2⟩ := funcNameAt_cap hj
      exact ⟨capNameAt_shape hj2, j, Or.inl hj⟩
    | none =>
      rw [h1] at h
      simp only at h
      cases h2 : scanFor constNameAt code (code.length + 1) 0 with
      | some r =>
        rw [h2] at h
        simp only at h
        cases h
        obtain ⟨j, hj⟩ := scanFor_some h2
        obtain ⟨j2, hj2⟩ := constNameAt_cap hj
        exact ⟨capNameAt_shape hj2, j, Or.inr (Or.inl hj)⟩
      | none =>
        rw [h2] at h
        simp only at h
        obtain ⟨j, hj⟩ := scanFor_some h
        obtain ⟨j2, hj2⟩ := exportDefaultNameAt_cap hj
        exact ⟨capNameAt_shape hj2, j, Or.inr (Or.inr hj)⟩
  · intro hall
    have hcap : ∀ j, capNameAt code j = none := by
      intro j
      cases hc : capNameAt code j with
      | none => rfl
      | some n =>
        obtain ⟨hcu, hcw⟩ := capNameAt_chars hc
        by_cases hj : j < code.length
        · exact absurd ⟨hcu, hcw⟩ (hall j hj)
        · rw [List.get?_eq_none.2 (by omega)] at hcu
          simp at hcu
    have hfun : ∀ j, funcNameAt code j = none := by
      intro j
      cases hf : funcNameAt code j with
      | none => rfl
      | some n =>
        obtain ⟨j2, hj2⟩ := funcNameAt_cap hf
        rw [hcap j2] at hj2
        exact absurd hj2 (by simp)
    have hconst : ∀ j, constNameAt code j = none := by
      intro j
      cases hf : constNameAt code j with
      | none => rfl
      | some n =>
        obtain ⟨j2, hj2⟩ := constNameAt_cap hf
        rw [hcap j2] at hj2
        exact absurd hj2 (by simp)
    have hexp : ∀ j, exportDefaultNameAt code j = none := by
      intro j
      cases hf : exportDefaultNameAt code j with
      | none => rfl
      | some n =>
        obtain ⟨j2, hj2⟩ := exportDefaultNameAt_cap hf
        rw [hcap j2] at hj2
        exact absurd hj2 (by simp)
    unfold extractComponentName
    rw [scanFor_none hfun, scanFor_none hconst, scanFor_none hexp]
  · intro n h
    unfold extractComponentName
    rw [h]

/-- Concrete instances of `extractComponentName_spec`: the detected name of
a `function Widget()` file has the required shape; a file declaring only
lowercase-initial components yields no name; the function pattern wins over
a later-in-priority pattern; and the lowercase-only component file set fails
assembly with "No valid component found.". -/
theorem extractComponentName_spec_witness :
    ((∃ c m, strL "Widget" = c :: m ∧ c.isUpper = true ∧ m ≠ [] ∧
        m.all isWordChar = true) ∧
      (∃ i, funcNameAt (strL "function Widget() \x7b return 1; \x7d") i =
          some (strL "Widget") ∨
        constNameAt (strL "function Widget() \x7b return 1; \x7d") i =
          some (strL "Widget") ∨
        exportDefaultNameAt (strL "function Widget() \x7b return 1; \x7d") i =
          some (strL "Widget"))) ∧
      extractComponentName (strL "function widget() \x7b return <a/>; \x7d") = none ∧
      extractComponentName (strL "export default Foo; function Bar() \x7b\x7d") =
        some (strL "Bar") ∧
      bundledCode [⟨strL "jsx", strL "function widget() \x7b return <a/>; \x7d"⟩] =
        BundleResult.error (strL "No valid component found.") := by
  refine ⟨(extractComponentName_spec (strL "function Widget() \x7b return 1; \x7d")).1
            (strL "Widget") (by decide),
          (extractComponentName_spec (strL "function widget() \x7b return <a/>; \x7d")).2.1
            (by decide),
          (extractComponentName_spec (strL "export default Foo; function Bar() \x7b\x7d")).2.2
            (strL "Bar") (by decide),
          by decide⟩

/-- Concrete instance of `extractCodeFiles_allowlist`: the extracted python
file carries an allow-listed tag. -/
theorem extractCodeFiles_allowlist_witness :
    canvasLanguages.contains (toLowerStr (strL "python")) = true :=
  (extractCodeFiles_allowlist (strL "```python\nprint(1)\n```")).1
    (strL "python", strL "print(1)") (by decide)

/-! ### C5: the scan is total, skips malformed openers, and drops
unterminated fences -/

theorem findSubAux_spec {pat : Str} :
    ∀ (u : Str) (i q : Nat), findSubAux pat u i = some q →
      i ≤ q ∧ q - i + pat.length ≤ u.length := by
  intro u
  induction u with
  | nil => intro i q h; exact absurd h (by simp [findSubAux])
  | cons c rest ih =>
    intro i q h
    rw [findSubAux] at h
    split at h
    · cases h
      have hle : pat.length ≤ (c :: rest).length :=
        List.IsPrefix.length_le (List.isPrefixOf_iff_prefix.1 (by assumption))
      omega
    · obtain ⟨h1, h2⟩ := ih (i + 1) q h
      simp only [List.length_cons]
      omega

theorem jsIndexOf_bound {s pat : Str} {pos p : Nat} (hpat : pat ≠ [])
    (h : jsIndexOf s pat pos = some p) : pos ≤ p ∧ p + pat.length ≤ s.length := by
  unfold jsIndexOf at h
  cases hf : findSubAux pat (s.drop pos) 0 with
  | none => rw [hf] at h; exact absurd h (by simp)
  | some q =>
    rw [hf] at h
    simp only [Option.map_some'] at h
    cases h
    obtain ⟨h1, h2⟩ := findSubAux_spec (s.drop pos) 0 q hf
    rw [List.length_drop] at h2
    have hp1 : 1 ≤ pat.length := by
      cases pat with
      | nil => exact absurd rfl hpat
      | cons a r => simp
    omega

theorem findCloseF_bound {s : Str} :
    ∀ (fuel sp p : Nat), findCloseF s fuel sp = some p → sp ≤ p ∧ p + 3 ≤ s.length := by
  intro fuel
  induction fuel with
  | zero => intro sp p h; exact absurd h (by simp [findCloseF])
  | succ f ih =>
    intro sp p h
    rw [findCloseF] at h
    split at h
    · cases hidx : jsIndexOf s fenceStr sp with
      | none => rw [hidx] at h; exact absurd h (by simp)
      | some pe =>
        rw [hidx] at h
        obtain ⟨h1, h2⟩ := jsIndexOf_bound (by decide) hidx
        simp only at h
        split at h
        · cases h
          exact ⟨h1, h2⟩
        · obtain ⟨h3, h4⟩ := ih _ _ h
          exact ⟨by omega, h4⟩
    · exact absurd h (by simp)

theorem findClose_bound {s : Str} {sp p : Nat} (h : findClose s sp = some p) :
    sp ≤ p ∧ p + 3 ≤ s.length := findCloseF_bound _ _ _ h

theorem parseScanF_big_pos {s : Str} {pos : Nat} (h : ¬pos < s.length) :
    ∀ fuel, parseScanF s fuel pos = [] := by
  intro fuel
  cases fuel with
  | zero => rfl
  | succ f => rw [parseScanF, if_neg h]

theorem parseScanF_fuel (s : Str) :
    ∀ (f1 : Nat) (pos f2 : Nat), s.length + 1 - pos ≤ f1 → s.length + 1 - pos ≤ f2 →
      parseScanF s f1 pos = parseScanF s f2 pos := by
  intro f1
  induction f1 with
  | zero =>
    intro pos f2 h1 h2
    have hp : ¬pos < s.length := by omega
    rw [parseScanF_big_pos hp, parseScanF_big_pos hp]
  | succ f ih =>
    intro pos f2 h1 h2
    by_cases hp : pos < s.length
    · obtain ⟨g, rfl⟩ : ∃ g, f2 = g + 1 := by
        cases f2 with
        | zero => omega
        | succ g => exact ⟨g, rfl⟩
      rw [parseScanF, parseScanF, if_pos hp, if_pos hp]
      cases hidx : jsIndexOf s fenceStr pos with
      | none => rfl
      | some cs =>
        obtain ⟨hcs1, hcs2⟩ := jsIndexOf_bound (by decide) hidx
        simp only
        cases hnl : jsIndexOf s nlStr (cs + 3) with
        | none => exact ih (cs + 3) g (by omega) (by omega)
        | some le =>
          obtain ⟨hle1, hle2⟩ := jsIndexOf_bound (by decide) hnl
          simp only
          cases hcl : findClose s (le + 1) with
          | none => rfl
          | some ce =>
            obtain ⟨hce1, hce2⟩ := findClose_bound hcl
            simp only
            rw [ih (ce + 3) g (by omega) (by omega)]
    · rw [parseScanF_big_pos hp, parseScanF_big_pos hp]

/-- C5: the fenced-block scan of `parseAiResponse` is total.  (a) Its
iteration bound is immaterial: any bound at least `length + 1` (one
iteration per character is a safe linear bound since every iteration
strictly advances the position) gives the same result, so the loop
terminates within linearly many iterations.  (b) An opener with no newline
before end-of-input makes the scan advance past the opener and continue,
producing no block for it.  (c) An opener whose fence is never closed at the
start of a later line produces no block for that opener (the scan stops,
yielding no further blocks at all). -/
theorem parseScan_total (s : Str) :
    (∀ extra, parseScanF s (s.length + 1 + extra) 0 = parseCodeBlocks s) ∧
    (∀ fuel pos cs, pos < s.length → jsIndexOf s fenceStr pos = some cs →
      jsIndexOf s nlStr (cs + 3) = none →
      parseScanF s (fuel + 1) pos = parseScanF s fuel (cs + 3)) ∧
    (∀ fuel pos cs le, pos < s.length → jsIndexOf s fenceStr pos = some cs →
      jsIndexOf s nlStr (cs + 3) = some le → findClose s (le + 1) = none →
      parseScanF s (fuel + 1) pos = []) := by
  refine ⟨?_, ?_, ?_⟩
  · intro extra
    exact parseScanF_fuel s (s.length + 1 + extra) 0 (s.length + 1) (by omega) (by omega)
  · intro fuel pos cs hp hidx hnl
    rw [parseScanF, if_pos hp]
    simp only [hidx, hnl]
  · intro fuel pos cs le hp hidx hnl hcl
    rw [parseScanF, if_pos hp]
    simp only [hidx, hnl, hcl]

/-- Concrete instances of `parseScan_total`: a longer bound changes nothing
on a sample text; an opener with no following newline is skipped; an opener
with no closing fence on its own line yields no block. -/
theorem parseScan_total_witness :
    parseScanF (strL "a```js\nx\n```b") ((strL "a```js\nx\n```b").length + 1 + 5) 0 =
        parseCodeBlocks (strL "a```js\nx\n```b") ∧
      parseScanF (strL "x```abc") 9 0 = parseScanF (strL "x```abc") 8 4 ∧
      parseScanF (strL "```a\nxx") 9 0 = [] := by
  refine ⟨(parseScan_total (strL "a```js\nx\n```b")).1 5, ?_, ?_⟩
  · exact (parseScan_total (strL "x```abc")).2.1 8 0 1 (by decide) (by decide) (by decide)
  · exact (parseScan_total (strL "```a\nxx")).2.2 8 0 0 4 (by decide) (by decide)
      (by decide) (by decide)

/-! ### C3: agreement of the fenced-block scanners -/

theorem extractScanF_eq_filter (s : Str) :
    ∀ fuel pos, extractScanF s fuel pos =
      (parseScanF s fuel pos).filterMap (fun b =>
        if canvasLanguages.contains (toLowerStr b.language) then some (b.language, b.code)
        else none) := by
  intro fuel
  induction fuel with
  | zero => intro pos; rfl
  | succ f ih =>
    intro pos
    rw [extractScanF, parseScanF]
    by_cases hp : pos < s.length
    · rw [if_pos hp, if_pos hp]
      cases hidx : jsIndexOf s fenceStr pos with
      | none => rfl
      | some cs =>
        simp only
        cases hnl : jsIndexOf s nlStr (cs + 3) with
        | none => exact ih (cs + 3)
        | some le =>
          simp only
          cases hcl : findClose s (le + 1) with
          | none => rfl
          | some ce =>
            simp only [List.filterMap_cons]
            by_cases hl : jsTrim (jsSlice s (cs + 3) le) = []
            · rw [hl]
              have h1 : canvasLanguages.contains (toLowerStr ([] : Str)) = false := by decide
              have h2 : canvasLanguages.contains (toLowerStr textTag) = false := by decide
              simp only [if_pos rfl, h1, h2, if_neg, Bool.false_eq_true, ite_false]
              simpa using ih (ce + 3)
            · rw [if_neg hl]
              by_cases ha : canvasLanguages.contains
                  (toLowerStr (jsTrim (jsSlice s (cs + 3) le))) = true
              · simp only [ha, if_true]
                simpa using ih (ce + 3)
              · simp only [ha]
                simp only [Bool.false_eq_true, if_false] at *
                simpa using ih (ce + 3)
    · rw [if_neg hp, if_neg hp]
      rfl

/-- The claim as stated is false: on the input ```` ```c++\nX\n``` ```` the
index-based scanners yield the `c++` block while the regex-based
`extractCodeFiles` of `ChatMessage.tsx` yields nothing (its `\w*` tag cannot
match `c++`), so the two file extractors disagree on block boundaries. -/
theorem scanners_disagree :
    extractCodeFilesRegex (strL "```c++\nX\n```") = [] ∧
      extractCodeFiles (strL "```c++\nX\n```") = [(strL "c++", strL "X")] ∧
      (parseCodeBlocks (strL "```c++\nX\n```")).map (fun b => (b.language, b.code)) =
        [(strL "c++", strL "X")] := by
  decide

/-- C3 (amended): the two index-based scanners agree on block boundaries for
every input — `extractCodeFiles` returns exactly the allow-list filtering of
the code blocks found by `parseAiResponse`'s scan (tags and trimmed bodies
included; an empty tag is defaulted to `text` only by `parseAiResponse`,
which is never allow-listed, so the filtering coincides) — while the
regex-based `extractCodeFiles` of `ChatMessage.tsx` can disagree with them. -/
theorem extractCodeFiles_eq_filtered (s : Str) :
    extractCodeFiles s = (parseCodeBlocks s).filterMap (fun b =>
      if canvasLanguages.contains (toLowerStr b.language) then some (b.language, b.code)
      else none) :=
  extractScanF_eq_filter s (s.length + 1) 0

/-! ### C1: well-formed fenced blocks are scanned exactly

Well-formedness of a document built from plain-text stretches and fenced
blocks, as the claim describes it: opener, tag, newline, content, closing
fence at the start of a line; the plain stretches contain no triple
backtick (and do not end in a backtick that would glue onto the following
opener), and block content may contain mid-line triple backticks but no
fence on its own line. -/

/-- A stretch of plain text between blocks. -/
def okText (t : Str) : Bool :=
  (findSubAux fenceStr t 0).isNone && !(t.getLast? == some btChar)

/-- A language tag: no newline. -/
def okTag (g : Str) : Bool := g.all (fun c => c ≠ '\n')

/-- Well-formed block content: empty or newline-terminated (so the closing
fence stands on its own line), not beginning with a fence, and containing
no newline-fence sequence; mid-line triple backticks are allowed. -/
def okContent (c : Str) : Bool :=
  (c.isEmpty || c.getLast? == some '\n') &&
  !(fenceStr.isPrefixOf c) &&
  (findSubAux ('\n' :: fenceStr) c 0).isNone

/-- One well-formed fenced block. -/
def renderBlock (tag content : Str) : Str :=
  fenceStr ++ tag ++ '\n' :: content ++ fenceStr

/-- Blocks each followed by a trailing plain stretch. -/
def renderSegs : List (Str × Str × Str) → Str
  | [] => []
  | (tag, content, t) :: rest => renderBlock tag content ++ t ++ renderSegs rest

/-- All block descriptions well formed. -/
def okSegs (segs : List (Str × Str × Str)) : Bool :=
  segs.all (fun x => okTag x.1 && okContent x.2.1 && okText x.2.2)

theorem findSubAux_first {pat : Str} (hpat : pat ≠ []) :
    ∀ (w : Str) (i q : Nat), pat.isPrefixOf (w.drop q) = true →
      (∀ j, j < q → pat.isPrefixOf (w.drop j) = false) →
      findSubAux pat w i = some (i + q) := by
  intro w
  induction w with
  | nil =>
    intro i q hq _
    exfalso
    rw [List.drop_nil] at hq
    cases pat with
    | nil => exact hpat rfl
    | cons a r => simp [List.isPrefixOf] at hq
  | cons c w' ih =>
    intro i q hq hmin
    cases q with
    | zero =>
      rw [findSubAux, if_pos (by simpa using hq)]
      simp
    | succ q' =>
      have h0 : pat.isPrefixOf (c :: w') = false := by
        have h := hmin 0 (by omega)
        simpa using h
      rw [findSubAux, if_neg (by simp [h0])]
      have hres := ih (i + 1) q' (by simpa using hq) ?_
      · rw [hres]
        congr 1
        omega
      · intro j hj
        have h := hmin (j + 1) (by omega)
        simpa using h

theorem findSubAux_isSome {pat : Str} (hpat : pat ≠ []) :
    ∀ (w : Str) (i j : Nat), pat.isPrefixOf (w.drop j) = true →
      (findSubAux pat w i).isSome = true := by
  intro w
  induction w with
  | nil =>
    intro i j hj
    exfalso
    rw [List.drop_nil] at hj
    cases pat with
    | nil => exact hpat rfl
    | cons a r => simp [List.isPrefixOf] at hj
  | cons c w' ih =>
    intro i j hj
    by_cases hpre : pat.isPrefixOf (c :: w') = true
    · rw [findSubAux, if_pos hpre]
      rfl
    · rw [findSubAux, if_neg hpre]
      cases j with
      | zero => exact absurd (by simpa using hj) hpre
      | succ j' => exact ih (i + 1) j' (by simpa using hj)

theorem isPrefixOf_fence_chars {w : Str} (h : fenceStr.isPrefixOf w = true) :
    ∃ rest, w = btChar :: btChar :: btChar :: rest := by
  obtain ⟨rest, hrest⟩ := List.isPrefixOf_iff_prefix.1 h
  exact ⟨rest, hrest.symm⟩

theorem okText_no_fence_before {u v : Str} (hu : okText u = true) :
    ∀ j, j < u.length → fenceStr.isPrefixOf ((u ++ (fenceStr ++ v)).drop j) = false := by
  intro j hj
  by_contra hcon
  rw [Bool.not_eq_false] at hcon
  rw [okText, Bool.and_eq_true] at hu
  obtain ⟨hno, hlast⟩ := hu
  have hdrop : (u ++ (fenceStr ++ v)).drop j = u.drop j ++ (fenceStr ++ v) :=
    List.drop_append_of_le_length (by omega)
  rw [hdrop] at hcon
  obtain ⟨rest, hrest⟩ := isPrefixOf_fence_chars hcon
  have hlen := List.length_drop j u
  cases hd : u.drop j with
  | nil =>
    rw [hd] at hlen
    simp at hlen
    omega
  | cons c1 d1 =>
    rw [hd, List.cons_append] at hrest
    injection hrest with hc1 hrest1
    cases d1 with
    | nil =>
      have hgl : u.getLast? = some btChar := by
        conv_lhs => rw [← List.take_append_drop j u]
        rw [List.getLast?_append_of_ne_nil _ (by rw [hd]; simp), hd, hc1]
        rfl
      rw [hgl] at hlast
      simp at hlast
    | cons c2 d2 =>
      rw [List.cons_append] at hrest1
      injection hrest1 with hc2 hrest2
      cases d2 with
      | nil =>
        have hd2 : u.drop j = [c1] ++ [btChar] := by rw [hd, hc2]; rfl
        have hgl : u.getLast? = some btChar := by
          conv_lhs => rw [← List.take_append_drop j u]
          rw [List.getLast?_append_of_ne_nil _ (by rw [hd2]; simp), hd2,
            List.getLast?_append_of_ne_nil _ (by simp)]
          rfl
        rw [hgl] at hlast
        simp at hlast
      | cons c3 d3 =>
        rw [List.cons_append] at hrest2
        injection hrest2 with hc3 _
        have hpre : fenceStr.isPrefixOf (u.drop j) = true := by
          rw [hd, hc1, hc2, hc3]
          simp [fenceStr, List.isPrefixOf]
        have hsome := findSubAux_isSome (by decide) u 0 j hpre
        cases hfind : findSubAux fenceStr u 0 with
        | none => rw [hfind] at hsome; simp at hsome
        | some q => rw [hfind] at hno; simp at hno

theorem jsIndexOf_render_fence {s u v : Str} {pos : Nat} (hu : okText u = true)
    (hdrop : s.drop pos = u ++ (fenceStr ++ v)) :
    jsIndexOf s fenceStr pos = some (pos + u.length) := by
  unfold jsIndexOf
  rw [hdrop]
  rw [findSubAux_first (by decide) _ 0 u.length ?_ ?_]
  · simp [Nat.add_comm]
  · rw [List.drop_left]
    exact List.isPrefixOf_iff_prefix.2 (List.prefix_append _ _)
  · exact fun j hj => okText_no_fence_before hu j hj

theorem okTag_no_nl_before {g v : Str} (hg : okTag g = true) :
    ∀ j, j < g.length → nlStr.isPrefixOf ((g ++ ('\n' :: v)).drop j) = false := by
  intro j hj
  by_contra hcon
  rw [Bool.not_eq_false] at hcon
  have hdrop : (g ++ ('\n' :: v)).drop j = g.drop j ++ ('\n' :: v) :=
    List.drop_append_of_le_length (by omega)
  rw [hdrop] at hcon
  have hlen := List.length_drop j g
  cases hd : g.drop j with
  | nil =>
    rw [hd] at hlen
    simp at hlen
    omega
  | cons c d =>
    rw [hd] at hcon
    obtain ⟨rest, hrest⟩ := List.isPrefixOf_iff_prefix.1 hcon
    have h2 : '\n' :: rest = c :: (d ++ ('\n' :: v)) := by
      simpa [nlStr] using hrest
    injection h2 with hc _
    have hmem : c ∈ g := by
      have hmd : c ∈ g.drop j := by rw [hd]; simp
      exact List.mem_of_mem_drop hmd
    rw [okTag, List.all_eq_true] at hg
    have := hg c hmem
    rw [← hc] at this
    simp at this

theorem jsIndexOf_render_nl {s g v : Str} {pos : Nat} (hg : okTag g = true)
    (hdrop : s.drop pos = g ++ ('\n' :: v)) :
    jsIndexOf s nlStr pos = some (pos + g.length) := by
  unfold jsIndexOf
  rw [hdrop]
  rw [findSubAux_first (by decide) _ 0 g.length ?_ ?_]
  · simp [Nat.add_comm]
  · rw [List.drop_left]
    simp [nlStr, List.isPrefixOf]
  · exact fun j hj => okTag_no_nl_before hg j hj

theorem jsSlice_render {s w z : Str} {pos : Nat} (hdrop : s.drop pos = w ++ z) :
    jsSlice s pos (pos + w.length) = w := by
  rw [jsSlice_drop, hdrop, List.take_left]

theorem findSubAux_found {pat : Str} :
    ∀ (w : Str) (i r : Nat), findSubAux pat w i = some r →
      i ≤ r ∧ pat.isPrefixOf (w.drop (r - i)) = true ∧
        ∀ j, j < r - i → pat.isPrefixOf (w.drop j) = false := by
  intro w
  induction w with
  | nil => intro i r h; exact absurd h (by simp [findSubAux])
  | cons c w' ih =>
    intro i r h
    by_cases hpre : pat.isPrefixOf (c :: w') = true
    · rw [findSubAux, if_pos hpre] at h
      cases h
      exact ⟨le_refl _, by simpa using hpre, fun j hj => by omega⟩
    · rw [findSubAux, if_neg hpre] at h
      obtain ⟨h1, h2, h3⟩ := ih (i + 1) r h
      refine ⟨by omega, ?_, ?_⟩
      · have he : r - i = (r - (i + 1)) + 1 := by omega
        rw [he]
        simpa using h2
      · intro j hj
        cases j with
        | zero =>
          rw [List.drop_zero]
          exact (Bool.not_eq_true _) ▸ hpre
        | succ j' =>
          have := h3 j' (by omega)
          simpa using this

theorem jsIndexOf_found {s pat : Str} {sp pe : Nat}
    (h : jsIndexOf s pat sp = some pe) :
    sp ≤ pe ∧ pat.isPrefixOf (s.drop pe) = true ∧
      ∀ j, sp ≤ j → j < pe → pat.isPrefixOf (s.drop j) = false := by
  unfold jsIndexOf at h
  cases hf : findSubAux pat (s.drop sp) 0 with
  | none => rw [hf] at h; exact absurd h (by simp)
  | some q =>
    rw [hf] at h
    simp only [Option.map_some'] at h
    cases h
    obtain ⟨_, h2, h3⟩ := findSubAux_found (s.drop sp) 0 q hf
    refine ⟨by omega, ?_, ?_⟩
    · rw [List.drop_drop] at h2
      have he : sp + (q - 0) = q + sp := by omega
      rwa [he] at h2
    · intro j hj1 hj2
      have h4 := h3 (j - sp) (by omega)
      rw [List.drop_drop] at h4
      have he : sp + (j - sp) = j := by omega
      rwa [he] at h4

theorem jsIndexOf_isSome_of_prefix {s pat : Str} {sp q : Nat} (hpat : pat ≠ [])
    (hq : pat.isPrefixOf (s.drop q) = true) (hle : sp ≤ q) :
    (jsIndexOf s pat sp).isSome = true := by
  unfold jsIndexOf
  have h := findSubAux_isSome hpat (s.drop sp) 0 (q - sp) ?_
  · cases hf : findSubAux pat (s.drop sp) 0 with
    | none => rw [hf] at h; simp at h
    | some t => simp [hf]
  · rw [List.drop_drop]
    have he : sp + (q - sp) = q := by omega
    rwa [he]

theorem fence_chars_at {s : Str} {q : Nat}
    (h : fenceStr.isPrefixOf (s.drop q) = true) :
    s.get? q = some btChar ∧ s.get? (q + 1) = some btChar ∧ q + 3 ≤ s.length := by
  obtain ⟨rest, hrest⟩ := isPrefixOf_fence_chars h
  have hlen : q + 3 ≤ s.length := by
    have h2 := congrArg List.length hrest
    rw [List.length_drop] at h2
    simp only [List.length_cons] at h2
    omega
  have hget : ∀ k, s.get? (q + k) = (btChar :: btChar :: btChar :: rest).get? k := by
    intro k
    rw [← hrest, List.get?_drop]
  exact ⟨by simpa using hget 0, by simpa using hget 1, hlen⟩

theorem fence_prefix_append_cases {d X : Str}
    (h : fenceStr.isPrefixOf (d ++ (fenceStr ++ X)) = true) (hd : d ≠ []) :
    fenceStr.isPrefixOf d = true ∨ d.getLast? = some btChar := by
  obtain ⟨rest, hrest⟩ := isPrefixOf_fence_chars h
  cases d with
  | nil => exact absurd rfl hd
  | cons c1 d1 =>
    rw [List.cons_append] at hrest
    injection hrest with hc1 hrest1
    cases d1 with
    | nil => exact Or.inr (by rw [hc1]; rfl)
    | cons c2 d2 =>
      rw [List.cons_append] at hrest1
      injection hrest1 with hc2 hrest2
      cases d2 with
      | nil => exact Or.inr (by rw [List.getLast?_cons_cons, hc2]; rfl)
      | cons c3 d3 =>
        rw [List.cons_append] at hrest2
        injection hrest2 with hc3 _
        refine Or.inl ?_
        rw [hc1, hc2, hc3]
        simp [fenceStr, List.isPrefixOf]

theorem getLast?_drop_of_lt {l : List Char} {k : Nat} (h : k < l.length) :
    (l.drop k).getLast? = l.getLast? := by
  conv_rhs => rw [← List.take_append_drop k l]
  rw [List.getLast?_append_of_ne_nil]
  intro he
  have h2 := congrArg List.length he
  rw [List.length_drop] at h2
  simp at h2
  omega

/-- The closing-fence search finds exactly the first line-start fence: if
`q` is a line-start fence at or after `sp` and no line-start fence lies in
between, then the search returns `q`.  Mid-line fences are skipped three
characters at a time, which never jumps past a line-start fence because the
two characters after a fence occurrence are preceded by backticks. -/
theorem findCloseF_finds {s : Str} {q : Nat}
    (hq1 : fenceStr.isPrefixOf (s.drop q) = true)
    (hq2 : q = 0 ∨ s.get? (q - 1) = some '\n') :
    ∀ fuel sp, sp ≤ q → q + 1 - sp ≤ fuel →
      (∀ j, sp ≤ j → j < q → ¬(fenceStr.isPrefixOf (s.drop j) = true ∧
        (j = 0 ∨ s.get? (j - 1) = some '\n'))) →
      findCloseF s fuel sp = some q := by
  intro fuel
  induction fuel with
  | zero =>
    intro sp h1 h2 _
    omega
  | succ f ih =>
    intro sp hsp hfuel hnone
    obtain ⟨_, _, hqlen⟩ := fence_chars_at hq1
    have hsplen : sp < s.length := by omega
    rw [findCloseF, if_pos hsplen]
    have hsome := jsIndexOf_isSome_of_prefix (by decide) hq1 hsp
    cases hidx : jsIndexOf s fenceStr sp with
    | none => rw [hidx] at hsome; simp at hsome
    | some pe =>
      simp only [hidx]
      obtain ⟨hpe1, hpe2, hpe3⟩ := jsIndexOf_found hidx
      have hpeq : pe ≤ q := by
        by_contra hgt
        have := hpe3 q hsp (by omega)
        rw [hq1] at this
        exact absurd this (by simp)
      by_cases hcl : pe = 0 ∨ s.get? (pe - 1) = some '\n'
      · have hpe_eq : pe = q := by
          by_contra hne
          exact hnone pe hpe1 (by omega) ⟨hpe2, hcl⟩
        rw [if_pos ?_, hpe_eq]
        rcases hcl with h | h <;> simp only [h] <;> simp
      · have hne : pe ≠ q := by
          intro he
          rw [he] at hcl
          exact hcl hq2
        have hq3 : pe + 3 ≤ q := by
          rcases Nat.lt_or_ge q (pe + 3) with hlt | hge
          · exfalso
            obtain ⟨hb0, hb1, _⟩ := fence_chars_at hpe2
            have hchar : s.get? (q - 1) = some btChar := by
              have hcase : q - 1 = pe ∨ q - 1 = pe + 1 := by omega
              rcases hcase with h | h
              · rw [h]; exact hb0
              · rw [h]; exact hb1
            rcases hq2 with h0 | hnl
            · omega
            · rw [hchar] at hnl
              injection hnl with h
              exact absurd h (by decide)
          · omega
        rw [if_neg ?_]
        · exact ih (pe + 3) (by omega) (by omega)
            (fun j hj1 hj2 => hnone j (by omega) hj2)
        · intro hcond
          apply hcl
          simpa using hcond

/-- On a well-formed block the closing-fence search lands exactly on the
fence that follows the content. -/
theorem findClose_render {s content v : Str} {cS : Nat}
    (hdrop : s.drop cS = content ++ (fenceStr ++ v))
    (hok : okContent content = true)
    (hprev : s.get? (cS - 1) = some '\n') (hcS : 1 ≤ cS) :
    findClose s cS = some (cS + content.length) := by
  rw [okContent, Bool.and_eq_true, Bool.and_eq_true] at hok
  obtain ⟨⟨hend, hpre⟩, hnlf⟩ := hok
  have hdropq : s.drop (cS + content.length) = fenceStr ++ v := by
    have h1 := List.drop_drop content.length cS s
    rw [hdrop, List.drop_left] at h1
    exact h1.symm
  have hq1 : fenceStr.isPrefixOf (s.drop (cS + content.length)) = true := by
    rw [hdropq]
    exact List.isPrefixOf_iff_prefix.2 (List.prefix_append _ _)
  have hgetk : ∀ k, s.get? (cS + k) = (content ++ (fenceStr ++ v)).get? k := by
    intro k
    rw [← hdrop, List.get?_drop]
  have hq2 : cS + content.length = 0 ∨
      s.get? (cS + content.length - 1) = some '\n' := by
    right
    by_cases hce : content = []
    · simp only [hce, List.length_nil, Nat.add_zero]
      exact hprev
    · have hie : content.isEmpty = false := by
        cases content with
        | nil => exact absurd rfl hce
        | cons a r => rfl
      have hlastNl : content.getLast? = some '\n' := by
        rw [hie] at hend
        simp only [Bool.false_or] at hend
        exact eq_of_beq hend
      have hlen1 : 0 < content.length := List.length_pos.2 hce
      have he : cS + content.length - 1 = cS + (content.length - 1) := by omega
      rw [he, hgetk, List.get?_eq_getElem?, List.getElem?_append_left (by omega)]
      rw [← List.getLast?_eq_getElem? content]
      exact hlastNl
  have hnone : ∀ j, cS ≤ j → j < cS + content.length →
      ¬(fenceStr.isPrefixOf (s.drop j) = true ∧
        (j = 0 ∨ s.get? (j - 1) = some '\n')) := by
    intro j hj1 hj2
    obtain ⟨k, rfl⟩ : ∃ k, j = cS + k := ⟨j - cS, by omega⟩
    rintro ⟨hfj, hlsj⟩
    have hklt : k < content.length := by omega
    have hcne : content ≠ [] := by
      intro he
      rw [he] at hklt
      simp at hklt
    have hlastNl : content.getLast? = some '\n' := by
      have hie : content.isEmpty = false := by
        cases content with
        | nil => exact absurd rfl hcne
        | cons a r => rfl
      rw [hie] at hend
      simp only [Bool.false_or] at hend
      exact eq_of_beq hend
    have hdropj : s.drop (cS + k) = content.drop k ++ (fenceStr ++ v) := by
      have h1 := List.drop_drop k cS s
      rw [hdrop, List.drop_append_of_le_length (by omega)] at h1
      exact h1.symm
    rw [hdropj] at hfj
    have hdne : content.drop k ≠ [] := by
      intro he
      have h2 := congrArg List.length he
      rw [List.length_drop] at h2
      simp at h2
      omega
    rcases fence_prefix_append_cases hfj hdne with hcase | hcase
    · cases k with
      | zero =>
        rw [List.drop_zero] at hcase
        simp [hcase] at hpre
      | succ q =>
        have hnl : s.get? (cS + q) = some '\n' := by
          rcases hlsj with h | h
          · omega
          · have he : cS + (q + 1) - 1 = cS + q := by omega
            rwa [he] at h
        have hgc : content[q]? = some '\n' := by
          have h2 := hgetk q
          rw [hnl] at h2
          rw [List.get?_eq_getElem?, List.getElem?_append_left (by omega)] at h2
          exact h2.symm
        have hqlt : q < content.length := by omega
        have hgq : content[q] = '\n' := by
          rw [List.getElem?_eq_getElem hqlt] at hgc
          injection hgc
        have hpref : ('\n' :: fenceStr).isPrefixOf (content.drop q) = true := by
          rw [List.drop_eq_getElem_cons hqlt, hgq]
          simp [List.isPrefixOf, hcase]
        have hsome := @findSubAux_isSome ('\n' :: fenceStr) (by simp)
          content 0 q hpref
        cases hf2 : findSubAux ('\n' :: fenceStr) content 0 with
        | none => rw [hf2] at hsome; simp at hsome
        | some t => rw [hf2] at hnlf; simp at hnlf
    · rw [getLast?_drop_of_lt hklt, hlastNl] at hcase
      injection hcase with h
      exact absurd h (by decide)
  obtain ⟨_, _, hqlen⟩ := fence_chars_at hq1
  exact findCloseF_finds hq1 hq2 (s.length + 1) cS (by omega) (by omega) hnone

theorem drop_pos_shift {s w z : Str} {pos : Nat} (hdrop : s.drop pos = w ++ z) :
    s.drop (pos + w.length) = z := by
  have h1 := List.drop_drop w.length pos s
  rw [hdrop, List.drop_left] at h1
  exact h1.symm

theorem parseScanF_render (s : Str) :
    ∀ (segs : List (Str × Str × Str)) (t : Str) (pos fuel : Nat),
      okText t = true → okSegs segs = true →
      s.drop pos = t ++ renderSegs segs →
      s.length + 1 - pos ≤ fuel →
      (parseScanF s fuel pos).map (fun b => (b.language, b.code)) =
        segs.map (fun x =>
          ((if jsTrim x.1 = [] then textTag else jsTrim x.1), jsTrim x.2.1)) := by
  intro segs
  induction segs with
  | nil =>
    intro t pos fuel ht _ hdrop _
    simp only [renderSegs, List.append_nil] at hdrop
    have hidx : jsIndexOf s fenceStr pos = none := by
      unfold jsIndexOf
      rw [hdrop]
      rw [okText, Bool.and_eq_true] at ht
      obtain ⟨hno, _⟩ := ht
      cases hf : findSubAux fenceStr t 0 with
      | none => rfl
      | some q => rw [hf] at hno; simp at hno
    cases fuel with
    | zero => rfl
    | succ f =>
      rw [parseScanF]
      split
      · simp only [hidx, List.map_nil]
      · rfl
  | cons seg rest ih =>
    obtain ⟨tag, content, t1⟩ := seg
    intro t pos fuel ht hs hdrop hfuel
    rw [okSegs, List.all_cons, Bool.and_eq_true] at hs
    obtain ⟨hseg, hrest⟩ := hs
    rw [Bool.and_eq_true, Bool.and_eq_true] at hseg
    obtain ⟨⟨htag, hcontent⟩, ht1⟩ := hseg
    have hlay : s.drop pos =
        t ++ (fenceStr ++ (tag ++ ('\n' ::
          (content ++ (fenceStr ++ (t1 ++ renderSegs rest)))))) := by
      rw [hdrop]
      simp [renderSegs, renderBlock, List.append_assoc]
    have hidx : jsIndexOf s fenceStr pos = some (pos + t.length) :=
      jsIndexOf_render_fence ht hlay
    have hlay2 : s.drop pos = (t ++ fenceStr) ++ (tag ++ ('\n' ::
        (content ++ (fenceStr ++ (t1 ++ renderSegs rest))))) := by
      rw [hlay, List.append_assoc]
    have hdrop2 := drop_pos_shift hlay2
    rw [List.length_append] at hdrop2
    have hfl : fenceStr.length = 3 := by decide
    rw [hfl, ← Nat.add_assoc] at hdrop2
    have hnl : jsIndexOf s nlStr (pos + t.length + 3) =
        some (pos + t.length + 3 + tag.length) :=
      jsIndexOf_render_nl htag hdrop2
    have hslice1 : jsSlice s (pos + t.length + 3) (pos + t.length + 3 + tag.length) =
        tag := jsSlice_render hdrop2
    have hlay3 : s.drop (pos + t.length + 3) = (tag ++ ['\n']) ++
        (content ++ (fenceStr ++ (t1 ++ renderSegs rest))) := by
      rw [hdrop2]
      simp
    have hdrop3 := drop_pos_shift hlay3
    rw [List.length_append, List.length_singleton, ← Nat.add_assoc] at hdrop3
    have hprevNl : s.get? (pos + t.length + 3 + tag.length) = some '\n' := by
      have h1 := List.get?_drop s (pos + t.length + 3) tag.length
      rw [hdrop2] at h1
      rw [← h1, List.get?_eq_getElem?, List.getElem?_append_right (le_refl _)]
      simp
    have hclose : findClose s (pos + t.length + 3 + tag.length + 1) =
        some (pos + t.length + 3 + tag.length + 1 + content.length) := by
      refine findClose_render hdrop3 hcontent ?_ (by omega)
      have he : pos + t.length + 3 + tag.length + 1 - 1 =
          pos + t.length + 3 + tag.length := by omega
      rw [he]
      exact hprevNl
    have hslice2 : jsSlice s (pos + t.length + 3 + tag.length + 1)
        (pos + t.length + 3 + tag.length + 1 + content.length) = content :=
      jsSlice_render hdrop3
    have hlay4 : s.drop (pos + t.length + 3 + tag.length + 1) =
        (content ++ fenceStr) ++ (t1 ++ renderSegs rest) := by
      rw [hdrop3, List.append_assoc]
    have hdrop4 := drop_pos_shift hlay4
    rw [List.length_append, hfl, ← Nat.add_assoc] at hdrop4
    have hlen := congrArg List.length hlay
    rw [List.length_drop] at hlen
    simp only [List.length_append, List.length_cons, hfl] at hlen
    have hpos : pos < s.length := by omega
    obtain ⟨g, rfl⟩ : ∃ g, fuel = g + 1 := ⟨fuel - 1, by omega⟩
    rw [parseScanF, if_pos hpos]
    simp only [hidx, hnl, hclose, hslice1, hslice2, List.map_cons]
    have htails := ih t1 (pos + t.length + 3 + tag.length + 1 + content.length + 3) g
      ht1 hrest hdrop4 (by omega)
    rw [htails]

/-- C1: on any input made of `N` well-formed fenced blocks (triple-backtick
opener, newline-free tag, newline, content that either is empty or ends in
a newline and contains no line-start fence, closing fence on its own line)
separated by plain stretches free of triple backticks, the fenced-block
scan of `parseAiResponse` yields exactly those `N` blocks in document
order, each with language the trimmed tag (defaulted to `text` when it
trims away) and code the trimmed content; mid-line triple backticks inside
content are never treated as closing fences. -/
theorem parseCodeBlocks_wellFormed (t0 : Str) (segs : List (Str × Str × Str))
    (h0 : okText t0 = true) (hs : okSegs segs = true) :
    (parseCodeBlocks (t0 ++ renderSegs segs)).map (fun b => (b.language, b.code)) =
      segs.map (fun x =>
        ((if jsTrim x.1 = [] then textTag else jsTrim x.1), jsTrim x.2.1)) := by
  unfold parseCodeBlocks
  exact parseScanF_render _ segs t0 0 _ h0 hs (by simp) (by omega)

/-- Concrete instance of `parseCodeBlocks_wellFormed`: two well-formed
blocks, the second with a mid-line triple backtick in its content and an
empty tag, are scanned exactly. -/
theorem parseCodeBlocks_wellFormed_witness :
    (parseCodeBlocks (strL "Hi\n" ++
        renderSegs [(strL "js", strL "let x = 1\n", strL "\nmid\n"),
                    (strL " ", strL "a```b\n", strL "\nend")])).map
      (fun b => (b.language, b.code)) =
      [(strL "js", strL "let x = 1"), (textTag, strL "a```b")] := by
  have h := parseCodeBlocks_wellFormed (strL "Hi\n")
    [(strL "js", strL "let x = 1\n", strL "\nmid\n"),
     (strL " ", strL "a```b\n", strL "\nend")] (by decide) (by decide)
  rw [h]
  decide

end Syrion
